import Mathlib

/-!
Verification development for the resume-parser core (`core/information_parser.py`).

Strings are modelled as lists of Unicode characters (`Str`), matching Python's
sequence-of-code-points semantics.  Each Python regular expression used by the
source is compiled by hand into a deterministic Lean matcher realising the
backtracking behaviour of `re` on that concrete pattern; a comment on each
matcher records the original pattern.  All definitions are executable, so
concrete runs of the model can be settled by `decide` / `rfl`.
-/

namespace ResumeCore

/-- Python strings as sequences of code points. -/
abbrev Str := List Char

/-- Python whitespace for `\s` and `str.strip` (the ASCII repertoire the source exercises). -/
def isSpaceCh (c : Char) : Bool :=
  decide (c = ' ' ∨ c = '\t' ∨ c = '\n' ∨ c = '\r' ∨ c = '\x0b' ∨ c = '\x0c')

/-- `str.lstrip()` on the left end. -/
def lstripCh (l : Str) : Str := l.dropWhile isSpaceCh

/-- `str.rstrip()` on the right end. -/
def rstripCh (l : Str) : Str := (l.reverse.dropWhile isSpaceCh).reverse

/-- Python `str.strip()`. -/
def pyStrip (l : Str) : Str := lstripCh (rstripCh l)

/-- `text[a:b]` for `0 ≤ a ≤ b` (Python slice with clamping). -/
def seg (text : Str) (a b : Nat) : Str := (text.drop a).take (b - a)

/-- Python `str.split(d)` on a one-character separator: every occurrence splits,
empty pieces are kept. -/
def splitChar (d : Char) : Str → List Str
  | [] => [[]]
  | c :: cs =>
    if c = d then [] :: splitChar d cs
    else
      match splitChar d cs with
      | [] => [[c]]
      | p :: ps => (c :: p) :: ps

/-- Case-sensitive "the pattern starts here" test. -/
def leadsWith : Str → Str → Bool
  | [], _ => true
  | _ :: _, [] => false
  | p :: ps, c :: cs => if c = p then leadsWith ps cs else false

/-- ASCII lower-casing, the effect of `str.lower()` / `re.IGNORECASE` on the
characters the source manipulates. -/
def toLowerCh (c : Char) : Char :=
  if 65 ≤ c.toNat ∧ c.toNat ≤ 90 then Char.ofNat (c.toNat + 32) else c

/-- Case-insensitive "the (lower-case) pattern starts here" test. -/
def ciLeads : Str → Str → Bool
  | [], _ => true
  | _ :: _, [] => false
  | p :: ps, c :: cs => if toLowerCh c = p then ciLeads ps cs else false

/-- `str.lower()`. -/
def lowerStr (s : Str) : Str := s.map toLowerCh

/-- Case-sensitive substring test, Python's `pat in s`. -/
def hasSub (pat : Str) : Str → Bool
  | [] => leadsWith pat []
  | c :: cs => leadsWith pat (c :: cs) || hasSub pat cs

/-- Index of the first case-insensitive occurrence of `pat` (given lower-case). -/
def findSubCI (pat : Str) : Str → Option Nat
  | [] => if ciLeads pat [] then some 0 else none
  | c :: cs => if ciLeads pat (c :: cs) then some 0 else (findSubCI pat cs).map (· + 1)

/-- Case-insensitive substring test. -/
def hasSubCI (pat s : Str) : Bool := (findSubCI pat s).isSome

/-- Index of the first case-sensitive occurrence of `pat`. -/
def findSubCS (pat : Str) : Str → Option Nat
  | [] => if leadsWith pat [] then some 0 else none
  | c :: cs => if leadsWith pat (c :: cs) then some 0 else (findSubCS pat cs).map (· + 1)

/-- Start positions of all non-overlapping case-insensitive occurrences of the
literal `pat`, scanning left to right (the semantics of `re.finditer` /
`re.split` on a literal pattern with `re.IGNORECASE`).  The fuel argument only
bounds the recursion; `text.length + 1` is always enough since every step
consumes at least one character (all patterns used are nonempty). -/
def ciOccsGo (pat : Str) : Nat → Nat → Str → List Nat
  | 0, _, _ => []
  | fuel + 1, p, s =>
    match s with
    | [] => []
    | c :: cs =>
      if ciLeads pat (c :: cs) then
        p :: ciOccsGo pat fuel (p + pat.length) ((c :: cs).drop pat.length)
      else ciOccsGo pat fuel (p + 1) cs

def ciOccs (pat text : Str) : List Nat := ciOccsGo pat (text.length + 1) 0 text

/-- The pieces of `text` standing between occurrences (of width `plen`)
starting at the listed positions. -/
def splitAtOccs (plen : Nat) (text : Str) : List Nat → Nat → List Str
  | [], start => [seg text start text.length]
  | p :: rest, start => seg text start p :: splitAtOccs plen text rest (p + plen)

/-- `re.split` on a case-insensitive literal pattern. -/
def reSplitCI (pat text : Str) : List Str := splitAtOccs pat.length text (ciOccs pat text) 0

/-- Python `str.replace(pat, rep)`: all non-overlapping occurrences, left to
right, case-sensitively.  Fuel as in `ciOccsGo`. -/
def replaceGo (pat rep : Str) : Nat → Str → Str
  | 0, s => s
  | fuel + 1, s =>
    match s with
    | [] => []
    | c :: cs =>
      if leadsWith pat (c :: cs) then rep ++ replaceGo pat rep fuel ((c :: cs).drop pat.length)
      else c :: replaceGo pat rep fuel cs

def pyReplace (pat rep s : Str) : Str := replaceGo pat rep (s.length + 1) s

/-- Length of the leading whitespace run (what greedy `\s*` consumes). -/
def wsRunLen (s : Str) : Nat := (s.takeWhile isSpaceCh).length

/-- Python `str.split()` with no argument: split on whitespace runs, dropping
empty pieces (used for word counting). -/
def pyWords (s : Str) : List Str := (splitChar ' ' (s.map (fun c => if isSpaceCh c then ' ' else c))).filter (· ≠ [])

/-! ### Decimal digits and `strftime`-style formatting -/

def digitChar : Nat → Char
  | 0 => '0' | 1 => '1' | 2 => '2' | 3 => '3' | 4 => '4'
  | 5 => '5' | 6 => '6' | 7 => '7' | 8 => '8' | _ => '9'

def digitVal (c : Char) : Option Nat :=
  if 48 ≤ c.toNat ∧ c.toNat ≤ 57 then some (c.toNat - 48) else none

/-- Two-digit zero-padded field (`%m`, `%d`). -/
def pad2 (n : Nat) : Str := [digitChar (n / 10 % 10), digitChar (n % 10)]

/-- Four-digit zero-padded field (`%Y`; Python years are at most 9999). -/
def pad4 (n : Nat) : Str :=
  [digitChar (n / 1000 % 10), digitChar (n / 100 % 10), digitChar (n / 10 % 10), digitChar (n % 10)]

/-- `datetime.strftime("%Y-%m-%d")`. -/
def fmtYMD (y m d : Nat) : Str := pad4 y ++ '-' :: (pad2 m ++ '-' :: pad2 d)

/-- The process-wide current date (`datetime.now()`), an external input to the
date normalizer. -/
structure Now where
  year : Nat
  month : Nat
  day : Nat

/-! ### `strptime` on the six patterns tried by `parse_date_range` -/

/-- Exactly-four-digits field, the `strptime` regex for `%Y`. -/
def parse4Digits : Str → Option (Nat × Str)
  | c1 :: c2 :: c3 :: c4 :: rest =>
    match digitVal c1, digitVal c2, digitVal c3, digitVal c4 with
    | some a, some b, some c, some d => some (((a * 10 + b) * 10 + c) * 10 + d, rest)
    | _, _, _, _ => none
  | _ => none

/-- One-or-two-digit field (`%m`, `%d`), greedy; the character after it in every
format used is a non-digit, so greediness is unambiguous. -/
def parse1or2 : Str → Option (Nat × Str)
  | c1 :: c2 :: r =>
    match digitVal c1, digitVal c2 with
    | some a, some b => some (10 * a + b, r)
    | some a, none => some (a, c2 :: r)
    | _, _ => none
  | [c1] => (digitVal c1).map fun a => (a, ([] : Str))
  | [] => none

def monthsFull : List (Nat × Str) :=
  [(1, "january".toList), (2, "february".toList), (3, "march".toList), (4, "april".toList),
   (5, "may".toList), (6, "june".toList), (7, "july".toList), (8, "august".toList),
   (9, "september".toList), (10, "october".toList), (11, "november".toList),
   (12, "december".toList)]

def monthsAbbr : List (Nat × Str) :=
  [(1, "jan".toList), (2, "feb".toList), (3, "mar".toList), (4, "apr".toList),
   (5, "may".toList), (6, "jun".toList), (7, "jul".toList), (8, "aug".toList),
   (9, "sep".toList), (10, "oct".toList), (11, "nov".toList), (12, "dec".toList)]

/-- `%B` / `%b`: first case-insensitively matching month name. -/
def monthScan : List (Nat × Str) → Str → Option (Nat × Str)
  | [], _ => none
  | (mo, nm) :: more, s =>
    if ciLeads nm s then some (mo, s.drop nm.length) else monthScan more s

def daysInMonth (y m : Nat) : Nat :=
  if m = 2 then (if y % 4 = 0 ∧ (y % 100 ≠ 0 ∨ y % 400 = 0) then 29 else 28)
  else if m = 4 ∨ m = 6 ∨ m = 9 ∨ m = 11 then 30
  else 31

/-- `datetime(y, m, d)` construction succeeds (`MINYEAR = 1`, `MAXYEAR = 9999`). -/
def validYMD (y m d : Nat) : Bool :=
  decide (1 ≤ y ∧ y ≤ 9999 ∧ 1 ≤ m ∧ m ≤ 12 ∧ 1 ≤ d ∧ d ≤ daysInMonth y m)

/-- `strptime(s, "%B %Y")` / `"%b %Y"` (a format-string blank matches `\s+`;
`strptime` requires the whole string to be consumed; day defaults to 1). -/
def tryMonthNames (names : List (Nat × Str)) (s : Str) : Option (Nat × Nat × Nat) :=
  match monthScan names s with
  | none => none
  | some (mo, rest) =>
    let w := wsRunLen rest
    if w = 0 then none
    else
      match parse4Digits (rest.drop w) with
      | some (y, []) => if validYMD y mo 1 then some (y, mo, 1) else none
      | _ => none

/-- `strptime(s, "%Y-%m-%d")`. -/
def tryYMD (s : Str) : Option (Nat × Nat × Nat) :=
  match parse4Digits s with
  | some (y, '-' :: r1) =>
    (match parse1or2 r1 with
     | some (m, '-' :: r2) =>
       (match parse1or2 r2 with
        | some (d, []) => if validYMD y m d then some (y, m, d) else none
        | _ => none)
     | _ => none)
  | _ => none

/-- `strptime(s, "%Y/%m/%d")`. -/
def tryYslash (s : Str) : Option (Nat × Nat × Nat) :=
  match parse4Digits s with
  | some (y, '/' :: r1) =>
    (match parse1or2 r1 with
     | some (m, '/' :: r2) =>
       (match parse1or2 r2 with
        | some (d, []) => if validYMD y m d then some (y, m, d) else none
        | _ => none)
     | _ => none)
  | _ => none

/-- `strptime(s, "%m/%d/%Y")`. -/
def tryMDY (s : Str) : Option (Nat × Nat × Nat) :=
  match parse1or2 s with
  | some (m, '/' :: r1) =>
    (match parse1or2 r1 with
     | some (d, '/' :: r2) =>
       (match parse4Digits r2 with
        | some (y, []) => if validYMD y m d then some (y, m, d) else none
        | _ => none)
     | _ => none)
  | _ => none

/-- `strptime(s, "%Y")` (month and day default to 1). -/
def tryYonly (s : Str) : Option (Nat × Nat × Nat) :=
  match parse4Digits s with
  | some (y, []) => if validYMD y 1 1 then some (y, 1, 1) else none
  | _ => none

/-- `_parse_single_date`: the fixed ordered pattern list; on success, emit
`strftime("%Y")` when the input string had exactly 4 characters and
`strftime("%Y-%m-%d")` otherwise; on failure return the input unchanged. -/
def parseSingleDate (s : Str) : Str :=
  let r :=
    match tryMonthNames monthsFull s with
    | some r => some r
    | none =>
      match tryMonthNames monthsAbbr s with
      | some r => some r
      | none =>
        match tryYMD s with
        | some r => some r
        | none =>
          match tryYslash s with
          | some r => some r
          | none =>
            match tryMDY s with
            | some r => some r
            | none => tryYonly s
  match r with
  | some (y, m, d) => if s.length = 4 then pad4 y else fmtYMD y m d
  | none => s

/-- `parse_date_range` (information_parser.py:50-85): en-dash to hyphen, strip,
replace a literal "Present" by today's `%Y-%m-%d`, split on **every** hyphen,
parse the first two pieces (the current date stands in for a missing second
piece). -/
def parse_date_range (now : Now) (dateStr : Str) : Str × Str :=
  let cur := fmtYMD now.year now.month now.day
  let s1 := pyStrip (pyReplace ['–'] ['-'] dateStr)
  let s2 := if hasSub "Present".toList s1 then pyReplace "Present".toList cur s1 else s1
  let parts := splitChar '-' s2
  let startD := pyStrip (parts.headD [])
  let endD := if 1 < parts.length then pyStrip (parts.getD 1 []) else cur
  (parseSingleDate startD, parseSingleDate endD)

/-! ### Helper lemmas about digits, padding, splitting and stripping -/

theorem digitChar_toNat (d : Nat) (h : d < 10) : (digitChar d).toNat = 48 + d := by
  interval_cases d <;> rfl

theorem digitVal_digitChar (d : Nat) (h : d < 10) : digitVal (digitChar d) = some d := by
  rw [digitVal, digitChar_toNat d h, if_pos (by omega)]
  congr 1
  omega

theorem char_ne_of_toNat {c c' : Char} (h : c.toNat ≠ c'.toNat) : c ≠ c' := by
  intro e
  exact h (by rw [e])

theorem isSpaceCh_digitChar (d : Nat) (h : d < 10) : isSpaceCh (digitChar d) = false := by
  have ht := digitChar_toNat d h
  rw [isSpaceCh, decide_eq_false_iff_not]
  rintro (e | e | e | e | e | e) <;> rw [e] at ht <;> simp at ht <;> omega

theorem mem_pad4_digit {c : Char} {y : Nat} (h : c ∈ pad4 y) : ∃ d, d < 10 ∧ c = digitChar d := by
  rw [pad4] at h
  simp only [List.mem_cons, List.not_mem_nil, or_false] at h
  rcases h with rfl | rfl | rfl | rfl <;> exact ⟨_, Nat.mod_lt _ (by norm_num), rfl⟩

theorem digitChar_ne_dash (d : Nat) (h : d < 10) : digitChar d ≠ '-' := by
  apply char_ne_of_toNat
  rw [digitChar_toNat d h]
  show 48 + d ≠ 45
  omega

theorem dash_not_mem_pad4 (y : Nat) : '-' ∉ pad4 y := by
  intro hmem
  obtain ⟨d, hd, he⟩ := mem_pad4_digit hmem
  exact digitChar_ne_dash d hd he.symm

theorem splitChar_ne_nil (d : Char) (l : Str) : splitChar d l ≠ [] := by
  induction l with
  | nil => simp [splitChar]
  | cons c cs ih =>
    rw [splitChar]
    split
    · simp
    · cases h : splitChar d cs with
      | nil => simp
      | cons p ps => simp

theorem splitChar_append_cons (d : Char) (xs ys : Str) (h : d ∉ xs) :
    splitChar d (xs ++ d :: ys) = xs :: splitChar d ys := by
  induction xs with
  | nil => simp [splitChar]
  | cons c cs ih =>
    have hc : c ≠ d := by intro e; exact h (by simp [e])
    have hcs : d ∉ cs := fun e => h (List.mem_cons_of_mem _ e)
    rw [List.cons_append, splitChar, if_neg hc, ih hcs]

theorem dropWhile_cons_false {p : Char → Bool} {c : Char} {l : Str} (h : p c = false) :
    List.dropWhile p (c :: l) = c :: l := by
  rw [List.dropWhile_cons, h]
  simp

theorem dropWhile_all_false {p : Char → Bool} {l : Str} (h : ∀ c ∈ l, p c = false) :
    List.dropWhile p l = l := by
  cases l with
  | nil => rfl
  | cons c cs => exact dropWhile_cons_false (h c (List.mem_cons_self c cs))

theorem pyStrip_no_space {l : Str} (h : ∀ c ∈ l, isSpaceCh c = false) : pyStrip l = l := by
  have h1 : rstripCh l = l := by
    rw [rstripCh, dropWhile_all_false fun c hc => h c (List.mem_reverse.1 hc), List.reverse_reverse]
  rw [pyStrip, h1, lstripCh, dropWhile_all_false h]

theorem pad4_no_space (y : Nat) : ∀ c ∈ pad4 y, isSpaceCh c = false := by
  intro c hc
  obtain ⟨d, hd, rfl⟩ := mem_pad4_digit hc
  exact isSpaceCh_digitChar d hd

theorem pyStrip_space_pad4 (y : Nat) : pyStrip (' ' :: pad4 y) = pad4 y := by
  have h4 : isSpaceCh (digitChar (y % 10)) = false :=
    isSpaceCh_digitChar _ (Nat.mod_lt _ (by norm_num))
  have h1 : rstripCh (' ' :: pad4 y) = ' ' :: pad4 y := by
    show (List.dropWhile isSpaceCh (digitChar (y % 10) :: digitChar (y / 10 % 10) ::
      digitChar (y / 100 % 10) :: digitChar (y / 1000 % 10) :: [' '])).reverse = ' ' :: pad4 y
    rw [dropWhile_cons_false h4]
    rfl
  rw [pyStrip, h1, lstripCh, List.dropWhile_cons]
  have hsp : isSpaceCh ' ' = true := rfl
  rw [hsp]
  show List.dropWhile isSpaceCh (pad4 y) = pad4 y
  exact dropWhile_all_false (pad4_no_space y)

theorem parse4Digits_pad4 (y : Nat) (h : y ≤ 9999) (rest : Str) :
    parse4Digits (pad4 y ++ rest) = some (y, rest) := by
  have h1 : y / 1000 % 10 < 10 := Nat.mod_lt _ (by norm_num)
  have h2 : y / 100 % 10 < 10 := Nat.mod_lt _ (by norm_num)
  have h3 : y / 10 % 10 < 10 := Nat.mod_lt _ (by norm_num)
  have h4 : y % 10 < 10 := Nat.mod_lt _ (by norm_num)
  show parse4Digits (digitChar (y / 1000 % 10) :: digitChar (y / 100 % 10) ::
      digitChar (y / 10 % 10) :: digitChar (y % 10) :: rest) = some (y, rest)
  rw [parse4Digits, digitVal_digitChar _ h1, digitVal_digitChar _ h2,
    digitVal_digitChar _ h3, digitVal_digitChar _ h4]
  have e1 : y / 100 / 10 = y / 1000 := by
    rw [Nat.div_div_eq_div_mul]
  have e0 : y / 1000 % 10 = y / 1000 := Nat.mod_eq_of_lt (by omega)
  have e2 : y / 10 / 10 = y / 100 := by
    rw [Nat.div_div_eq_div_mul]
  have hval : ((y / 1000 % 10 * 10 + y / 100 % 10) * 10 + y / 10 % 10) * 10 + y % 10 = y := by
    rw [e0]
    omega
  show some (((y / 1000 % 10 * 10 + y / 100 % 10) * 10 + y / 10 % 10) * 10 + y % 10, rest) =
    some (y, rest)
  rw [hval]

theorem toLowerCh_of_digit {c : Char} {d : Nat} (hd : d < 10) (h : c = digitChar d) :
    toLowerCh c = c := by
  rw [toLowerCh, if_neg]
  rw [h, digitChar_toNat d hd]
  omega

theorem monthScan_digit {c : Char} {d : Nat} (hd : d < 10) (hc : c = digitChar d)
    (names : List (Nat × Str)) (cs : Str)
    (hn : ∀ p ∈ names, p.2 ≠ [] ∧ 97 ≤ (p.2.headD ' ').toNat) :
    monthScan names (c :: cs) = none := by
  induction names with
  | nil => rfl
  | cons p more ih =>
    obtain ⟨mo, nm⟩ := p
    obtain ⟨hne, hhead⟩ := hn (mo, nm) (List.mem_cons_self _ _)
    cases hnm : nm with
    | nil => exact absurd hnm hne
    | cons n0 ns =>
      subst hnm
      simp only [List.headD_cons] at hhead
      have hcne : c ≠ n0 := by
        intro e
        have he := congrArg Char.toNat e
        rw [hc, digitChar_toNat d hd] at he
        omega
      have hci : ciLeads (n0 :: ns) (c :: cs) = false := by
        rw [ciLeads, toLowerCh_of_digit hd hc, if_neg hcne]
      rw [monthScan, hci]
      simp only [Bool.false_eq_true, if_false]
      exact ih fun q hq => hn q (List.mem_cons_of_mem _ hq)

theorem monthNames_wf_full : ∀ p ∈ monthsFull, p.2 ≠ [] ∧ 97 ≤ (p.2.headD ' ').toNat := by
  decide

theorem monthNames_wf_abbr : ∀ p ∈ monthsAbbr, p.2 ≠ [] ∧ 97 ≤ (p.2.headD ' ').toNat := by
  decide

theorem digitChar_ne_slash (d : Nat) (h : d < 10) : digitChar d ≠ '/' := by
  apply char_ne_of_toNat
  rw [digitChar_toNat d h]
  show 48 + d ≠ 47
  omega

/-- `_parse_single_date` on a zero-padded four-digit year: the `%Y` pattern is
the first that parses, and `strftime("%Y")` reproduces the same four digits. -/
theorem parseSingleDate_pad4 (y : Nat) (h1 : 1 ≤ y) (h2 : y ≤ 9999) :
    parseSingleDate (pad4 y) = pad4 y := by
  have hd1 : y / 1000 % 10 < 10 := Nat.mod_lt _ (by norm_num)
  have hp4 : parse4Digits (pad4 y) = some (y, []) := by
    have := parse4Digits_pad4 y h2 []
    simpa using this
  have hpad : pad4 y = digitChar (y / 1000 % 10) :: (digitChar (y / 100 % 10) ::
      digitChar (y / 10 % 10) :: digitChar (y % 10) :: []) := rfl
  have hmfull : tryMonthNames monthsFull (pad4 y) = none := by
    rw [tryMonthNames, hpad, monthScan_digit hd1 rfl _ _ monthNames_wf_full]
  have hmabbr : tryMonthNames monthsAbbr (pad4 y) = none := by
    rw [tryMonthNames, hpad, monthScan_digit hd1 rfl _ _ monthNames_wf_abbr]
  have hymd : tryYMD (pad4 y) = none := by
    rw [tryYMD, hp4]
  have hysl : tryYslash (pad4 y) = none := by
    rw [tryYslash, hp4]
  have hp12 : parse1or2 (pad4 y) =
      some (10 * (y / 1000 % 10) + y / 100 % 10, digitChar (y / 10 % 10) :: digitChar (y % 10) :: []) := by
    rw [hpad, parse1or2, digitVal_digitChar _ hd1, digitVal_digitChar _ (Nat.mod_lt _ (by norm_num))]
  have hmdy : tryMDY (pad4 y) = none := by
    rw [tryMDY, hp12]
    split
    · next m' r1 heq =>
      exfalso
      simp only [Option.some.injEq, Prod.mk.injEq, List.cons.injEq] at heq
      exact digitChar_ne_slash _ (Nat.mod_lt _ (by norm_num)) heq.2.1
    · rfl
  have hvalid : validYMD y 1 1 = true := by
    rw [validYMD, decide_eq_true_iff]
    refine ⟨h1, h2, by norm_num, by norm_num, by norm_num, ?_⟩
    rw [daysInMonth]
    norm_num
  have hyonly : tryYonly (pad4 y) = some (y, 1, 1) := by
    rw [tryYonly, hp4]
    show (if validYMD y 1 1 = true then some (y, 1, 1) else none) = some (y, 1, 1)
    rw [hvalid]
    simp
  have hlen : (pad4 y).length = 4 := by rw [hpad]; rfl
  rw [parseSingleDate, hmfull, hmabbr, hymd, hysl, hmdy, hyonly]
  simp [hlen]

/-- Shape of the "Present"-replaced date string: the concrete scan of
`str.replace` over `"January 2020 - Present"`. -/
theorem replace_present_jan (cur : Str) :
    pyReplace "Present".toList cur "January 2020 - Present".toList =
      "January 2020 - ".toList ++ (cur ++ []) := rfl

/-! ## Claim C2 — date normalizer on `"January 2020 - Present"` -/

/-- Claim C2 counterexample: on `"January 2020 - Present"` with current date
2026-10-12 the end component is the bare year `"2026"`, not the current date in
`YYYY-MM-DD` form — the split on **every** hyphen dismembers the substituted
current date. -/
theorem C2_counterexample :
    (parse_date_range ⟨2026, 10, 12⟩ "January 2020 - Present".toList).2 = "2026".toList ∧
      "2026".toList ≠ "2026-10-12".toList := by
  constructor
  · rfl
  · decide

/-- Claim C2 amended: for any current date with a positive year of at most four
digits, `parse_date_range "January 2020 - Present"` returns start
`"2020-01-01"` and end equal to the current **year**, zero-padded to four
digits (not the full current date). -/
theorem C2_amended (now : Now) (h1 : 1 ≤ now.year) (h2 : now.year ≤ 9999) :
    parse_date_range now "January 2020 - Present".toList =
      ("2020-01-01".toList, pad4 now.year) := by
  obtain ⟨y, m, d⟩ := now
  simp only at h1 h2
  have hs2 : pyReplace "Present".toList (fmtYMD y m d) "January 2020 - Present".toList
      = "January 2020 - ".toList ++ fmtYMD y m d := by
    rw [replace_present_jan, List.append_nil]
  have hns : '-' ∉ (' ' :: pad4 y) := by
    intro hmem
    rcases List.mem_cons.1 hmem with he | hm
    · exact (by decide : ('-' : Char) ≠ ' ') he
    · exact dash_not_mem_pad4 y hm
  have hsplit : splitChar '-' ("January 2020 - ".toList ++ fmtYMD y m d) =
      "January 2020 ".toList :: (' ' :: pad4 y) :: splitChar '-' (pad2 m ++ '-' :: pad2 d) := by
    have e : "January 2020 - ".toList ++ fmtYMD y m d =
        "January 2020 ".toList ++ '-' :: ((' ' :: pad4 y) ++ '-' :: (pad2 m ++ '-' :: pad2 d)) := rfl
    rw [e, splitChar_append_cons '-' _ _ (by decide), splitChar_append_cons '-' _ _ hns]
  simp only [parse_date_range]
  rw [show pyStrip (pyReplace ['–'] ['-'] "January 2020 - Present".toList) =
    "January 2020 - Present".toList from rfl]
  rw [if_pos (show hasSub "Present".toList "January 2020 - Present".toList = true from rfl)]
  rw [hs2, hsplit]
  simp only [List.headD_cons, List.getD_cons_succ, List.getD_cons_zero]
  rw [if_pos (show 1 < ("January 2020 ".toList :: (' ' :: pad4 y) ::
    splitChar '-' (pad2 m ++ '-' :: pad2 d)).length by simp)]
  rw [pyStrip_space_pad4]
  rw [show pyStrip "January 2020 ".toList = "January 2020".toList from rfl]
  rw [show parseSingleDate "January 2020".toList = "2020-01-01".toList from rfl]
  rw [parseSingleDate_pad4 y h1 h2]

/-- Witness for C2 amended at the concrete current date 2026-10-12. -/
theorem C2_witness :
    1 ≤ 2026 ∧ 2026 ≤ 9999 ∧
      parse_date_range ⟨2026, 10, 12⟩ "January 2020 - Present".toList =
        ("2020-01-01".toList, pad4 2026) :=
  ⟨by norm_num, by norm_num, C2_amended ⟨2026, 10, 12⟩ (by norm_num) (by norm_num)⟩

/-! ## Claim C3 — date normalizer on the canonical `"2020-01-01"` -/

/-- Claim C3 counterexample: `parse_date_range` is **not** idempotent on the
canonical date `"2020-01-01"`: the split on every hyphen reduces the start
component to the bare year `"2020"`. -/
theorem C3_counterexample :
    (parse_date_range ⟨2026, 10, 12⟩ "2020-01-01".toList).1 = "2020".toList ∧
      "2020".toList ≠ "2020-01-01".toList := by
  constructor
  · rfl
  · decide

/-- Claim C3 amended: for every current date, normalizing `"2020-01-01"`
returns start component `"2020"` (the bare year), not the canonical date
unchanged. -/
theorem C3_amended (now : Now) :
    (parse_date_range now "2020-01-01".toList).1 = "2020".toList := rfl

/-! ### Contact extractor (information_parser.py:142-174) -/

def isAsciiAlpha (c : Char) : Bool :=
  decide ((65 ≤ c.toNat ∧ c.toNat ≤ 90) ∨ (97 ≤ c.toNat ∧ c.toNat ≤ 122))

def isDigitCh (c : Char) : Bool := decide (48 ≤ c.toNat ∧ c.toNat ≤ 57)

/-- The class `[a-zA-Z0-9._%+-]` of `EMAIL_REGEX`'s local part. -/
def emailLocalCh (c : Char) : Bool :=
  isAsciiAlpha c || isDigitCh c || decide (c = '.' ∨ c = '_' ∨ c = '%' ∨ c = '+' ∨ c = '-')

/-- The class `[a-zA-Z0-9.-]` of `EMAIL_REGEX`'s domain part. -/
def emailDomCh (c : Char) : Bool := isAsciiAlpha c || isDigitCh c || decide (c = '.' ∨ c = '-')

/-- Backtracking of `[a-zA-Z0-9.-]+\.[a-zA-Z]{2,}`: the greedy domain run gives
characters back until the next character is the dot and at least two letters
follow; positions are tried from longest to shortest. -/
def emailSplitGo (loc dom s2 : Str) : Nat → Option Str
  | 0 => none
  | i + 1 =>
    let letters := ((s2.drop (i + 2)).takeWhile isAsciiAlpha)
    if dom.getD (i + 1) ' ' = '.' ∧ 2 ≤ letters.length then
      some (loc ++ '@' :: (dom.take (i + 1) ++ '.' :: letters))
    else emailSplitGo loc dom s2 i

/-- `EMAIL_REGEX = [a-zA-Z0-9._%+-]+@[a-zA-Z0-9.-]+\.[a-zA-Z]{2,}` anchored at
the current position; returns the matched text. -/
def emailAt (s : Str) : Option Str :=
  let loc := s.takeWhile emailLocalCh
  if loc.isEmpty then none
  else
    match s.drop loc.length with
    | '@' :: s2 =>
      let dom := s2.takeWhile emailDomCh
      emailSplitGo loc dom s2 (dom.length - 1)
    | _ => none

/-- One optional character (`X?` for a single-character class). -/
def optCh (p : Char → Bool) (s : Str) : Str × Str :=
  match s with
  | c :: t => if p c then ([c], t) else ([], s)
  | [] => ([], [])

/-- Exactly `n` characters of class `p` (`\d{n}`). -/
def takeN (p : Char → Bool) (n : Nat) (s : Str) : Option (Str × Str) :=
  if (s.take n).length = n ∧ (s.take n).all p then some (s.take n, s.drop n) else none

def sepCh (c : Char) : Bool := decide (c = '-') || isSpaceCh c

/-- `PHONE_REGEX = (\(?\d{3}\)?[-\s]?\d{3}[-\s]?\d{4})` anchored at the current
position (every optional piece is a single character not of the following
class, so greedy matching is deterministic). -/
def phoneAt (s : Str) : Option Str :=
  let (a, s1) := optCh (fun c => decide (c = '(')) s
  match takeN isDigitCh 3 s1 with
  | none => none
  | some (d1, s2) =>
    let (b, s3) := optCh (fun c => decide (c = ')')) s2
    let (c1, s4) := optCh sepCh s3
    match takeN isDigitCh 3 s4 with
    | none => none
    | some (d2, s5) =>
      let (c2, s6) := optCh sepCh s5
      match takeN isDigitCh 4 s6 with
      | none => none
      | some (d3, _) => some (a ++ d1 ++ b ++ c1 ++ d2 ++ c2 ++ d3)

def userCh (c : Char) : Bool := isAsciiAlpha c || isDigitCh c || decide (c = '_' ∨ c = '-')

/-- `LINKEDIN_REGEX = (linkedin\.com/in/[a-zA-Z0-9_-]+)` with `re.IGNORECASE`,
anchored at the current position. -/
def linkedinAt (s : Str) : Option Str :=
  if ciLeads "linkedin.com/in/".toList s then
    let run := (s.drop 16).takeWhile userCh
    if run.isEmpty then none else some (s.take 16 ++ run)
  else none

/-- `GITHUB_REGEX = (github\.com/[a-zA-Z0-9_-]+)` with `re.IGNORECASE`. -/
def githubAt (s : Str) : Option Str :=
  if ciLeads "github.com/".toList s then
    let run := (s.drop 11).takeWhile userCh
    if run.isEmpty then none else some (s.take 11 ++ run)
  else none

/-- `re.search` / first match of `re.findall`: leftmost position where the
anchored matcher succeeds. -/
def scanFirst (f : Str → Option Str) : Nat → Str → Option Str
  | 0, _ => none
  | _ + 1, [] => none
  | fuel + 1, c :: cs =>
    match f (c :: cs) with
    | some m => some m
    | none => scanFirst f fuel cs

/-! The generic website pattern
`WEBSITE_REGEX = (https?://)?(www\.)?([a-zA-Z0-9-]+\.)+[a-zA-Z]{2,6}(?:/\S*)?`.
`re.findall` on a pattern with several groups returns group tuples; a repeated
group keeps only its **last** repetition, so group 3 is the last
`[a-zA-Z0-9-]+\.` unit and the top-level domain is not part of any group. -/

/-- The class `[a-zA-Z0-9-]`. -/
def urlCh (c : Char) : Bool := isAsciiAlpha c || isDigitCh c || decide (c = '-')

/-- A parsed website match: groups 1-3 are recoverable from the fields; the
full matched text is `g1 ++ g2 ++ units ++ tld ++ path`. -/
structure WebMatch where
  g1 : Str
  g2 : Str
  units : List Str
  tld : Str
  path : Str
deriving DecidableEq, Repr

/-- Group 3: the last repetition of `([a-zA-Z0-9-]+\.)`. -/
def WebMatch.g3 (m : WebMatch) : Str := m.units.getLast?.getD []

/-- The whole matched text (`match.group(0)`), which `findall` does **not**
return for a multi-group pattern. -/
def WebMatch.matched (m : WebMatch) : Str := m.g1 ++ m.g2 ++ m.units.flatten ++ m.tld ++ m.path

/-- Greedy parse of `([a-zA-Z0-9-]+\.)*`: maximal run of class characters that
must be followed by a literal dot; a shorter run never exposes a dot (the dot
is not in the class), so each unit is determined. -/
def unitsGo : Nat → Str → List Str × Str
  | 0, s => ([], s)
  | fuel + 1, s =>
    let run := s.takeWhile urlCh
    if run.isEmpty then ([], s)
    else
      match s.drop run.length with
      | '.' :: rest =>
        let (us, r) := unitsGo fuel rest
        ((run ++ ['.']) :: us, r)
      | _ => ([], s)

/-- Backtracking between `(…\.)+` and `[a-zA-Z]{2,6}`: with all units consumed
try the (at most six, at least two) letters; on failure give the last unit back
to the subject and retry, as the regex engine does; at least one unit must
remain.  The trailing `(?:/\S*)?` never fails, so no further backtracking
occurs. -/
def selectGo : Nat → List Str → Str → Option (List Str × Str × Str)
  | 0, _, _ => none
  | fuel + 1, us, rest =>
    match us with
    | [] => none
    | _ :: _ =>
      let letters := (rest.takeWhile isAsciiAlpha).take 6
      if 2 ≤ letters.length then
        let after := rest.drop letters.length
        let path :=
          match after with
          | '/' :: t => '/' :: t.takeWhile (fun c => !isSpaceCh c)
          | _ => []
        some (us, letters, path)
      else
        match us.getLast? with
        | some lastu => selectGo fuel us.dropLast (lastu ++ rest)
        | none => none

/-- The core `([a-zA-Z0-9-]+\.)+[a-zA-Z]{2,6}(?:/\S*)?` of `WEBSITE_REGEX`
applied at `s2` with already-fixed groups 1 and 2; on success also returns the
unconsumed remainder of `s2`. -/
def tryCoreAt (g1 g2 s2 : Str) : Option (WebMatch × Str) :=
  match selectGo ((unitsGo (s2.length + 1) s2).1.length + 1) (unitsGo (s2.length + 1) s2).1
      (unitsGo (s2.length + 1) s2).2 with
  | some (us', tld, path) =>
    some ({ g1 := g1, g2 := g2, units := us', tld := tld, path := path },
      s2.drop (us'.flatten.length + tld.length + path.length))
  | none => none

/-- Length of the optional scheme group `(https?://)?` (`s?` is greedy). -/
def schemeLen (s : Str) : Nat :=
  if ciLeads "https://".toList s then 8 else if ciLeads "http://".toList s then 7 else 0

/-- `WEBSITE_REGEX` anchored at the current position.  The scheme needs no
retry on failure (without it the unit scan stops at `http(s)` followed by `:`
and fails anyway), but a matched `www.` must be retried as a unit when the core
fails, exactly as the engine backtracks over `(www\.)?`. -/
def matchWebAt (s : Str) : Option (WebMatch × Str) :=
  if ciLeads "www.".toList (s.drop (schemeLen s)) then
    match tryCoreAt (s.take (schemeLen s)) ((s.drop (schemeLen s)).take 4)
        ((s.drop (schemeLen s)).drop 4) with
    | some r => some r
    | none => tryCoreAt (s.take (schemeLen s)) [] (s.drop (schemeLen s))
  else tryCoreAt (s.take (schemeLen s)) [] (s.drop (schemeLen s))

/-- `re.findall(WEBSITE_REGEX, text)`: leftmost matches, continuing after each
match. -/
def webFindallGo : Nat → Str → List WebMatch
  | 0, _ => []
  | _ + 1, [] => []
  | fuel + 1, c :: cs =>
    match matchWebAt (c :: cs) with
    | some (m, rest) => m :: webFindallGo fuel rest
    | none => webFindallGo fuel cs

def websiteFindall (text : Str) : List WebMatch := webFindallGo (text.length + 1) text

/-- The `for url_parts in website_matches` loop: join the groups, strip, and
accept the first candidate that is nonempty and passes the exclusion checks. -/
def websitePick : List WebMatch → Option Str
  | [] => none
  | m :: more =>
    let fullUrl := pyStrip (m.g1 ++ m.g2 ++ m.g3)
    if fullUrl ≠ [] ∧
        hasSub "linkedin.com".toList (lowerStr fullUrl) = false ∧
        hasSub "github.com".toList (lowerStr fullUrl) = false ∧
        hasSub "@gmail.com".toList (lowerStr fullUrl) = false ∧
        hasSub "@email.com".toList (lowerStr fullUrl) = false then
      some fullUrl
    else websitePick more

/-- `ContactInfo`: a channel is absent (`none`) when no match is found. -/
structure ContactInfo where
  email : Option Str
  mobile : Option Str
  linkedin : Option Str
  github : Option Str
  website : Option Str
deriving DecidableEq, Repr

/-- `extract_contact_info` (information_parser.py:142-174). -/
def extract_contact_info (text : Str) : ContactInfo :=
  { email := (scanFirst emailAt (text.length + 1) text).map pyStrip
    mobile := (scanFirst phoneAt (text.length + 1) text).map pyStrip
    linkedin := (scanFirst linkedinAt (text.length + 1) text).map pyStrip
    github := (scanFirst githubAt (text.length + 1) text).map pyStrip
    website := websitePick (websiteFindall text) }

/-! ### Structure of website matches -/

theorem selectGo_some {fuel : Nat} {us us' : List Str} {rest tld path : Str}
    (h : selectGo fuel us rest = some (us', tld, path)) : us' ≠ [] ∧ 2 ≤ tld.length := by
  induction fuel generalizing us rest with
  | zero => simp [selectGo] at h
  | succ n ih =>
    cases us with
    | nil => rw [selectGo] at h; exact absurd h (by simp)
    | cons u ut =>
      rw [selectGo] at h
      split at h
      · next hguard =>
        simp only [Option.some.injEq, Prod.mk.injEq] at h
        obtain ⟨hus, htld, _⟩ := h
        exact ⟨by rw [← hus]; simp, by rw [← htld]; exact hguard⟩
      · split at h
        · exact ih h
        · exact absurd h (by simp)

theorem tryCoreAt_some {g1 g2 s2 : Str} {m : WebMatch} {rest : Str}
    (h : tryCoreAt g1 g2 s2 = some (m, rest)) : m.units ≠ [] ∧ 2 ≤ m.tld.length := by
  rw [tryCoreAt] at h
  split at h
  · next us' tld path hsel =>
    simp only [Option.some.injEq, Prod.mk.injEq] at h
    obtain ⟨hm, _⟩ := h
    rw [← hm]
    exact selectGo_some hsel
  · exact absurd h (by simp)

theorem matchWebAt_some {s : Str} {m : WebMatch} {rest : Str}
    (h : matchWebAt s = some (m, rest)) : m.units ≠ [] ∧ 2 ≤ m.tld.length := by
  rw [matchWebAt] at h
  split at h
  · split at h
    · next r heq =>
      simp only [Option.some.injEq] at h
      rw [h] at heq
      exact tryCoreAt_some heq
    · exact tryCoreAt_some h
  · exact tryCoreAt_some h

theorem webFindall_mem {fuel : Nat} {s : Str} {m : WebMatch} (h : m ∈ webFindallGo fuel s) :
    m.units ≠ [] ∧ 2 ≤ m.tld.length := by
  induction fuel generalizing s with
  | zero => simp [webFindallGo] at h
  | succ n ih =>
    cases s with
    | nil => simp [webFindallGo] at h
    | cons c cs =>
      rw [webFindallGo] at h
      split at h
      · next m0 rest hm =>
        rcases List.mem_cons.1 h with rfl | hmem
        · exact matchWebAt_some hm
        · exact ih hmem
      · exact ih h

theorem websitePick_some {l : List WebMatch} {w : Str} (h : websitePick l = some w) :
    ∃ m ∈ l, w = pyStrip (m.g1 ++ m.g2 ++ m.g3) := by
  induction l with
  | nil => simp [websitePick] at h
  | cons m more ih =>
    rw [websitePick] at h
    split at h
    · simp only [Option.some.injEq] at h
      exact ⟨m, List.mem_cons_self _ _, h.symm⟩
    · obtain ⟨m', hm', hw⟩ := ih h
      exact ⟨m', List.mem_cons_of_mem _ hm', hw⟩

theorem getLast_length_le (l : List Str) : (l.getLast?.getD []).length ≤ l.flatten.length := by
  induction l with
  | nil => simp
  | cons a t ih =>
    cases t with
    | nil => simp
    | cons b t2 =>
      rw [List.getLast?_cons_cons]
      have h2 : (a :: b :: t2).flatten.length = a.length + (b :: t2).flatten.length := by
        simp
      omega

theorem pyStrip_length_le (l : Str) : (pyStrip l).length ≤ l.length := by
  have h1 : (rstripCh l).length ≤ l.length := by
    rw [rstripCh, List.length_reverse]
    calc (l.reverse.dropWhile isSpaceCh).length ≤ l.reverse.length :=
        (List.dropWhile_sublist _).length_le
      _ = l.length := List.length_reverse _
  calc (pyStrip l).length ≤ (rstripCh l).length := (List.dropWhile_sublist _).length_le
    _ ≤ l.length := h1

/-! ## Claim C7 — an email's domain is classified as the Website value -/

/-- Claim C7 is violated by the code: on the input `"jane@example.com"` (an
email address and no other URL) the website matcher matches `"example.com"`
inside the address, the group join yields `"example."`, and none of the
`"@gmail.com"`-style exclusion checks can ever fire because the joined groups
never contain an `@`; so a Website value derived from the email's domain **is**
produced, contradicting the source's own comments ("Generic URL, excluding
common email domains" / "Exclude common email domains"). -/
theorem C7_email_domain_website :
    (extract_contact_info "jane@example.com".toList).email = some "jane@example.com".toList ∧
      (extract_contact_info "jane@example.com".toList).website = some "example.".toList := by
  exact ⟨rfl, rfl⟩

/-! ## Claim C10 — the Website value is the joined capture groups, never the
full matched URL -/

/-- Claim C10: any produced Website value is the strip of the concatenated
capture groups of some website match (optional scheme, optional `www.`, last
dot-terminated domain unit); it is at least two characters shorter than the
full matched text (which always also contains a top-level domain of length at
least 2), hence never the full matched URL.  On `"http://example.com"` the
value is `"http://example."` while the full match is `"http://example.com"`. -/
theorem C10_groups_only :
    (∀ text w, (extract_contact_info text).website = some w →
        ∃ m ∈ websiteFindall text,
          w = pyStrip (m.g1 ++ m.g2 ++ m.g3) ∧ w.length + 2 ≤ m.matched.length) ∧
      (extract_contact_info "http://example.com".toList).website =
        some "http://example.".toList ∧
      (websiteFindall "http://example.com".toList).map WebMatch.matched =
        ["http://example.com".toList] := by
  refine ⟨?_, rfl, rfl⟩
  intro text w h
  obtain ⟨m, hm, hw⟩ := websitePick_some h
  refine ⟨m, hm, hw, ?_⟩
  obtain ⟨hu, htld⟩ := webFindall_mem hm
  have h1 : (pyStrip (m.g1 ++ m.g2 ++ m.g3)).length ≤ (m.g1 ++ m.g2 ++ m.g3).length :=
    pyStrip_length_le _
  have h2 : m.g3.length ≤ m.units.flatten.length := getLast_length_le _
  have h3 : m.matched.length =
      m.g1.length + m.g2.length + m.units.flatten.length + m.tld.length + m.path.length := by
    rw [WebMatch.matched]
    simp [List.length_append]
    omega
  rw [hw]
  simp only [List.length_append] at h1
  omega

/-- Witness for the universal part of C10 at the concrete input
`"http://example.com"`. -/
theorem C10_witness :
    ∃ m ∈ websiteFindall "http://example.com".toList,
      "http://example.".toList = pyStrip (m.g1 ++ m.g2 ++ m.g3) ∧
        ("http://example.".toList).length + 2 ≤ m.matched.length :=
  C10_groups_only.1 "http://example.com".toList "http://example.".toList (by decide)

/-! ### Section segmenter (information_parser.py:176-240)

The five `header_patterns` are literals followed by `\s*`, matched with
`re.IGNORECASE`; matches of all patterns are collected in dict order and then
sorted by the `(start, end, section_name, matched_text)` tuple. -/

inductive HKey where
  | summaryK
  | areasK
  | eduK
  | expK
  | eduBottomK
deriving DecidableEq, Repr

/-- A header match: `(match.start(), match.end(), section_name)`. -/
structure HMatch where
  start : Nat
  stop : Nat
  key : HKey
deriving DecidableEq, Repr

/-- `re.finditer` of the literal-plus-`\s*` pattern: non-overlapping matches
left to right, each extended over the following whitespace run. -/
def findLitGo (key : HKey) (lit : Str) : Nat → Nat → Str → List HMatch
  | 0, _, _ => []
  | _ + 1, _, [] => []
  | fuel + 1, p, c :: cs =>
    if ciLeads lit (c :: cs) then
      let w := wsRunLen ((c :: cs).drop lit.length)
      ⟨p, p + lit.length + w, key⟩ ::
        findLitGo key lit fuel (p + lit.length + w) ((c :: cs).drop (lit.length + w))
    else findLitGo key lit fuel (p + 1) cs

def findLit (key : HKey) (lit text : Str) : List HMatch :=
  findLitGo key lit (text.length + 1) 0 text

/-- `header_patterns` in dict (insertion) order, literals lower-cased for the
case-insensitive matcher. -/
def headerLits : List (HKey × Str) :=
  [(HKey.summaryK, "professional summary:".toList),
   (HKey.areasK, "areas of expertise:".toList),
   (HKey.eduK, "educational:".toList),
   (HKey.expK, "professional experience:".toList),
   (HKey.eduBottomK, "educational details:".toList)]

def rawHeaderMatches (text : Str) : List HMatch :=
  (headerLits.map fun p => findLit p.1 p.2 text).flatten

/-- Order index of the Python `section_name` strings under string comparison:
"areas_of_expertise" < "educational" < "educational_details_bottom" <
"professional_experience" < "professional_summary". -/
def keyStrIdx : HKey → Nat
  | HKey.areasK => 0
  | HKey.eduK => 1
  | HKey.eduBottomK => 2
  | HKey.expK => 3
  | HKey.summaryK => 4

/-- `list.sort()` on the `(start, end, section_name, matched_text)` tuples;
distinct patterns can never match at the same start, so the fourth component
never decides and is omitted. -/
def hmLe (a b : HMatch) : Bool :=
  decide (a.start < b.start ∨ (a.start = b.start ∧
    (a.stop < b.stop ∨ (a.stop = b.stop ∧ keyStrIdx a.key ≤ keyStrIdx b.key))))

def sortedHeaderMatches (text : Str) : List HMatch :=
  List.insertionSort (fun a b => hmLe a b = true) (rawHeaderMatches text)

/-- The `(section key, content start, content end)` triples walked by the
assignment loop: each block runs from its header's end to the next header's
start (or the text's end). -/
def boundsGo (text : Str) : List HMatch → List (HKey × Nat × Nat)
  | [] => []
  | [m] => [(m.key, m.stop, text.length)]
  | m1 :: m2 :: rest => (m1.key, m1.stop, m2.start) :: boundsGo text (m2 :: rest)

def blockBoundsList (text : Str) : List (HKey × Nat × Nat) :=
  boundsGo text (sortedHeaderMatches text)

/-- `text[end_idx:next_start_idx].strip()`. -/
def blockContent (text : Str) (a b : Nat) : Str := pyStrip (seg text a b)

def sectionBlocksKeyed (text : Str) : List (HKey × Str) :=
  (blockBoundsList text).map fun p => (p.1, blockContent text p.2.1 p.2.2)

/-- The `SectionMap`: one raw text block per fixed section key. -/
structure SectionMap where
  professional_summary : Str
  areas_of_expertise : Str
  educational : Str
  professional_experience : Str
  projects : Str
  awards : Str
  certifications : Str
  publications : Str
  volunteer : Str
deriving DecidableEq, Repr

def emptySM : SectionMap := ⟨[], [], [], [], [], [], [], [], []⟩

/-- One step of the assignment loop: `educational_details_bottom` fills the
`educational` key only when it is still empty; every other key is assigned
unconditionally (overwriting earlier content). -/
def applyKey (sm : SectionMap) (k : HKey) (content : Str) : SectionMap :=
  match k with
  | HKey.summaryK => { sm with professional_summary := content }
  | HKey.areasK => { sm with areas_of_expertise := content }
  | HKey.eduK => { sm with educational := content }
  | HKey.expK => { sm with professional_experience := content }
  | HKey.eduBottomK =>
    if sm.educational = [] then { sm with educational := content } else sm

def assignSections (text : Str) : SectionMap :=
  (sectionBlocksKeyed text).foldl (fun sm p => applyKey sm p.1 p.2) emptySM

/-- The stop of the lazy group in
`Professional Summary:\s*(.*?)(?=Email:|Mobile:|\n\n|\Z)` (`re.DOTALL`,
`re.IGNORECASE`): first position where a lookahead alternative matches, or the
end of the string. -/
def stopGo : Nat → Nat → Str → Nat
  | 0, p, _ => p
  | _ + 1, p, [] => p
  | fuel + 1, p, c :: cs =>
    if ciLeads "email:".toList (c :: cs) || ciLeads "mobile:".toList (c :: cs) ||
        leadsWith "\n\n".toList (c :: cs) then p
    else stopGo fuel (p + 1) cs

/-- `re.search(r"Professional Summary:\s*(.*?)(?=Email:|Mobile:|\n\n|\Z)", intro)`,
returning `group(1).strip()`. -/
def psSummarySearch (intro : Str) : Option Str :=
  match findSubCI "professional summary:".toList intro with
  | none => none
  | some q =>
    let start := q + 21 + wsRunLen (intro.drop (q + 21))
    some (pyStrip (seg intro start (stopGo (intro.length + 1) start (intro.drop start))))

/-- `re.search` of `EMAIL_REGEX` / `PHONE_REGEX` / `LINKEDIN_REGEX` on one line
(the contact-pattern check of the intro-summary heuristic). -/
def lineHasContact (line : Str) : Bool :=
  (scanFirst emailAt (line.length + 1) line).isSome ||
    (scanFirst phoneAt (line.length + 1) line).isSome ||
    (scanFirst linkedinAt (line.length + 1) line).isSome

/-- Collect intro lines until the first line matching a contact pattern. -/
def collectIntroLines : List Str → List Str
  | [] => []
  | l :: ls => if lineHasContact l then [] else l :: collectIntroLines ls

/-- `"\n".join(...)`. -/
def joinNL : List Str → Str
  | [] => []
  | [l] => l
  | l :: ls => l ++ '\n' :: joinNL ls

/-- The trailing summary/intro handling of `section_text`: rewrites only the
`professional_summary` block, and only when at least one header matched. -/
def summaryFixup (text : Str) : List HMatch → SectionMap → SectionMap
  | [], sm => sm
  | m0 :: _, sm =>
    match psSummarySearch (pyStrip (seg text 0 m0.start)) with
    | some g => { sm with professional_summary := g }
    | none =>
      if 10 < (pyWords (pyStrip (joinNL (collectIntroLines
          (splitChar '\n' (pyStrip (seg text 0 m0.start))))))).length then
        { sm with professional_summary := pyStrip (joinNL (collectIntroLines
            (splitChar '\n' (pyStrip (seg text 0 m0.start))))) }
      else sm

/-- `section_text` (information_parser.py:176-240). -/
def section_text (text : Str) : SectionMap :=
  summaryFixup text (sortedHeaderMatches text) (assignSections text)

/-! ### Structural facts about the segmenter -/

/-- `s` occurs as a contiguous substring of `t`. -/
def SubSeg (s t : Str) : Prop := ∃ u v, t = u ++ s ++ v

theorem subSeg_trans {a b c : Str} (h1 : SubSeg a b) (h2 : SubSeg b c) : SubSeg a c := by
  obtain ⟨u1, v1, rfl⟩ := h1
  obtain ⟨u2, v2, rfl⟩ := h2
  exact ⟨u2 ++ u1, v1 ++ v2, by simp⟩

theorem subSeg_seg (text : Str) (a b : Nat) : SubSeg (seg text a b) text := by
  refine ⟨text.take a, (text.drop a).drop (b - a), ?_⟩
  rw [seg, List.append_assoc, List.take_append_drop (b - a) (text.drop a),
    List.take_append_drop a text]

theorem rstrip_decomp (l : Str) : l = rstripCh l ++ (l.reverse.takeWhile isSpaceCh).reverse := by
  rw [rstripCh, ← List.reverse_append, List.takeWhile_append_dropWhile, List.reverse_reverse]

theorem subSeg_strip (l : Str) : SubSeg (pyStrip l) l := by
  refine ⟨(rstripCh l).takeWhile isSpaceCh, (l.reverse.takeWhile isSpaceCh).reverse, ?_⟩
  conv_lhs => rw [rstrip_decomp l]
  rw [pyStrip, lstripCh]
  rw [← List.takeWhile_append_dropWhile (p := isSpaceCh) (l := rstripCh l)]
  simp

theorem subSeg_blockContent (text : Str) (a b : Nat) : SubSeg (blockContent text a b) text :=
  subSeg_trans (subSeg_strip (seg text a b)) (subSeg_seg text a b)

instance : DecidableRel (fun a b : HMatch => hmLe a b = true) := fun _ _ => instDecidableEqBool _ _

instance : IsTotal HMatch (fun a b => hmLe a b = true) :=
  ⟨fun a b => by
    simp only [hmLe, decide_eq_true_eq]
    omega⟩

instance : IsTrans HMatch (fun a b => hmLe a b = true) :=
  ⟨fun a b c hab hbc => by
    simp only [hmLe, decide_eq_true_eq] at hab hbc ⊢
    omega⟩

theorem hmLe_start {a b : HMatch} (h : hmLe a b = true) : a.start ≤ b.start := by
  simp only [hmLe, decide_eq_true_eq] at h
  omega

theorem findLitGo_wf (key : HKey) (lit : Str) :
    ∀ (fuel p : Nat) (s : Str), ∀ m ∈ findLitGo key lit fuel p s, m.start ≤ m.stop := by
  intro fuel
  induction fuel with
  | zero => intro p s m h; simp [findLitGo] at h
  | succ n ih =>
    intro p s m h
    cases s with
    | nil => simp [findLitGo] at h
    | cons c cs =>
      rw [findLitGo] at h
      split at h
      · rcases List.mem_cons.1 h with rfl | hm
        · show p ≤ p + lit.length + _
          omega
        · exact ih _ _ m hm
      · exact ih _ _ m h

theorem sorted_wf (text : Str) : ∀ m ∈ sortedHeaderMatches text, m.start ≤ m.stop := by
  intro m h
  rw [sortedHeaderMatches] at h
  rw [List.mem_insertionSort] at h
  rw [rawHeaderMatches] at h
  obtain ⟨l, hl, hm⟩ := List.mem_flatten.1 h
  obtain ⟨p, _, rfl⟩ := List.mem_map.1 hl
  exact findLitGo_wf p.1 p.2 _ _ _ m hm

theorem sorted_sorted (text : Str) :
    (sortedHeaderMatches text).Sorted (fun a b => hmLe a b = true) :=
  List.sorted_insertionSort _ _

/-- Defaults used with `List.getD`. -/
def dMatch : HMatch := ⟨0, 0, HKey.summaryK⟩

def dBound : HKey × Nat × Nat := (HKey.summaryK, 0, 0)

theorem getD_eq_get {α : Type} :
    ∀ (l : List α) (i : Nat) (d : α) (h : i < l.length), l.getD i d = l.get ⟨i, h⟩ := by
  intro l i d h
  rw [List.getD_eq_getElem l d h]
  simp

theorem sorted_start_le (text : Str) (i j : Nat) (hij : i ≤ j)
    (hj : j < (sortedHeaderMatches text).length) :
    ((sortedHeaderMatches text).getD i dMatch).start ≤
      ((sortedHeaderMatches text).getD j dMatch).start := by
  rcases Nat.eq_or_lt_of_le hij with rfl | hlt
  · exact Nat.le_refl _
  · have hi : i < (sortedHeaderMatches text).length := Nat.lt_trans hlt hj
    rw [getD_eq_get _ i dMatch hi, getD_eq_get _ j dMatch hj]
    exact hmLe_start ((sorted_sorted text).rel_get_of_lt hlt)

theorem boundsGo_length (text : Str) : ∀ ms : List HMatch, (boundsGo text ms).length = ms.length
  | [] => rfl
  | [_] => rfl
  | m1 :: m2 :: rest => by
    rw [boundsGo, List.length_cons, List.length_cons, boundsGo_length text (m2 :: rest),
      List.length_cons]

theorem boundsGo_stop (text : Str) :
    ∀ (ms : List HMatch) (i : Nat), i < ms.length →
      ((boundsGo text ms).getD i dBound).2.1 = (ms.getD i dMatch).stop
  | [], i, h => absurd h (by simp)
  | [_], 0, _ => rfl
  | [_], i + 1, h => absurd h (by simp)
  | _ :: _ :: _, 0, _ => rfl
  | m1 :: m2 :: rest, i + 1, h => by
    rw [boundsGo, List.getD_cons_succ, List.getD_cons_succ]
    exact boundsGo_stop text (m2 :: rest) i (by simp at h ⊢; omega)

theorem boundsGo_next (text : Str) :
    ∀ (ms : List HMatch) (i : Nat), i + 1 < ms.length →
      ((boundsGo text ms).getD i dBound).2.2 = (ms.getD (i + 1) dMatch).start
  | [], _, h => absurd h (by simp)
  | [_], i, h => absurd h (by simp)
  | _ :: _ :: _, 0, _ => rfl
  | m1 :: m2 :: rest, i + 1, h => by
    rw [boundsGo, List.getD_cons_succ, List.getD_cons_succ]
    exact boundsGo_next text (m2 :: rest) i (by simp at h ⊢; omega)

/-! ## Claim C1 — section blocks -/

/-- Claim C1 counterexample: on `"Professional Summary:A\nEducational:B"` the
first header match ends at 21 and the two produced blocks are `"A"` and `"B"`;
their concatenation `"AB"` is **not** the substring of the document from the
end of the first header to the end of the document (which is
`"A\nEducational:B"`): each later header's matched text, and the whitespace
trimmed by `strip`, are missing from the blocks. -/
theorem C1_counterexample :
    (sortedHeaderMatches "Professional Summary:A\nEducational:B".toList).map HMatch.stop =
        [21, 35] ∧
      (sectionBlocksKeyed "Professional Summary:A\nEducational:B".toList).map Prod.snd =
        ["A".toList, "B".toList] ∧
      ("A".toList ++ "B".toList) ≠
        seg "Professional Summary:A\nEducational:B".toList 21
          "Professional Summary:A\nEducational:B".toList.length := by
  refine ⟨by decide, by decide, by decide⟩

/-- Claim C1 amended: the blocks produced by `section_text`'s segmentation are
(whitespace-stripped) substrings of the document lying in non-overlapping
document order: block `i`'s interval ends at or before block `j`'s interval
starts whenever `i < j`.  The concatenation property of the original claim
fails (see the counterexample) because each later header's matched text and the
stripped whitespace are excluded from the blocks. -/
theorem C1_amended (text : Str) (i j : Nat) (hj : j < (blockBoundsList text).length)
    (hij : i < j) :
    SubSeg (blockContent text ((blockBoundsList text).getD i dBound).2.1
        ((blockBoundsList text).getD i dBound).2.2) text ∧
      ((blockBoundsList text).getD i dBound).2.2 ≤
        ((blockBoundsList text).getD j dBound).2.1 := by
  constructor
  · exact subSeg_blockContent text _ _
  · have hlen : (blockBoundsList text).length = (sortedHeaderMatches text).length :=
      boundsGo_length text _
    have hjm : j < (sortedHeaderMatches text).length := hlen ▸ hj
    have hi1 : i + 1 < (sortedHeaderMatches text).length :=
      Nat.lt_of_le_of_lt (Nat.succ_le_of_lt hij) hjm
    rw [blockBoundsList, boundsGo_next text _ i hi1, boundsGo_stop text _ j hjm]
    have h1 : ((sortedHeaderMatches text).getD (i + 1) dMatch).start ≤
        ((sortedHeaderMatches text).getD j dMatch).start :=
      sorted_start_le text (i + 1) j (Nat.succ_le_of_lt hij) hjm
    have h2 : ((sortedHeaderMatches text).getD j dMatch).start ≤
        ((sortedHeaderMatches text).getD j dMatch).stop := by
      rw [getD_eq_get _ j dMatch hjm]
      exact sorted_wf text _ (List.get_mem _ _ _)
    omega

/-- Witness for C1 amended on the two-header document, at block indices 0 and
1. -/
theorem C1_witness :
    1 < (blockBoundsList "Professional Summary:A\nEducational:B".toList).length ∧ 0 < 1 ∧
      (SubSeg (blockContent "Professional Summary:A\nEducational:B".toList
          ((blockBoundsList "Professional Summary:A\nEducational:B".toList).getD 0 dBound).2.1
          ((blockBoundsList "Professional Summary:A\nEducational:B".toList).getD 0 dBound).2.2)
          "Professional Summary:A\nEducational:B".toList ∧
        ((blockBoundsList "Professional Summary:A\nEducational:B".toList).getD 0 dBound).2.2 ≤
          ((blockBoundsList "Professional Summary:A\nEducational:B".toList).getD 1 dBound).2.1) :=
  ⟨by decide, by decide,
    C1_amended "Professional Summary:A\nEducational:B".toList 0 1 (by decide) (by decide)⟩

/-! ## Claim C6 — duplicate headers for the same key -/

/-- The content of the **last** block carried by key `k`, if any. -/
def lastFor (k : HKey) : List (HKey × Str) → Option Str
  | [] => none
  | p :: t =>
    match lastFor k t with
    | some v => some v
    | none => if p.1 = k then some p.2 else none

theorem applyKey_exp {sm : SectionMap} {k : HKey} {c : Str} (h : k ≠ HKey.expK) :
    (applyKey sm k c).professional_experience = sm.professional_experience := by
  cases k with
  | expK => exact absurd rfl h
  | eduBottomK => rw [applyKey]; split <;> rfl
  | summaryK => rfl
  | areasK => rfl
  | eduK => rfl

theorem applyKey_areas {sm : SectionMap} {k : HKey} {c : Str} (h : k ≠ HKey.areasK) :
    (applyKey sm k c).areas_of_expertise = sm.areas_of_expertise := by
  cases k with
  | areasK => exact absurd rfl h
  | eduBottomK => rw [applyKey]; split <;> rfl
  | summaryK => rfl
  | expK => rfl
  | eduK => rfl

theorem foldl_exp :
    ∀ (l : List (HKey × Str)) (sm : SectionMap),
      (l.foldl (fun sm p => applyKey sm p.1 p.2) sm).professional_experience =
        (lastFor HKey.expK l).getD sm.professional_experience := by
  intro l
  induction l with
  | nil => intro sm; rfl
  | cons p t ih =>
    intro sm
    rw [List.foldl_cons, ih, lastFor]
    cases hl : lastFor HKey.expK t with
    | some v => rfl
    | none =>
      by_cases hk : p.1 = HKey.expK
      · rw [if_pos hk]
        show (applyKey sm p.1 p.2).professional_experience = p.2
        rw [hk]
        rfl
      · rw [if_neg hk]
        show (applyKey sm p.1 p.2).professional_experience = sm.professional_experience
        exact applyKey_exp hk

theorem foldl_areas :
    ∀ (l : List (HKey × Str)) (sm : SectionMap),
      (l.foldl (fun sm p => applyKey sm p.1 p.2) sm).areas_of_expertise =
        (lastFor HKey.areasK l).getD sm.areas_of_expertise := by
  intro l
  induction l with
  | nil => intro sm; rfl
  | cons p t ih =>
    intro sm
    rw [List.foldl_cons, ih, lastFor]
    cases hl : lastFor HKey.areasK t with
    | some v => rfl
    | none =>
      by_cases hk : p.1 = HKey.areasK
      · rw [if_pos hk]
        show (applyKey sm p.1 p.2).areas_of_expertise = p.2
        rw [hk]
        rfl
      · rw [if_neg hk]
        show (applyKey sm p.1 p.2).areas_of_expertise = sm.areas_of_expertise
        exact applyKey_areas hk

theorem fixup_exp (text : Str) (ms : List HMatch) (sm : SectionMap) :
    (summaryFixup text ms sm).professional_experience = sm.professional_experience := by
  cases ms with
  | nil => rfl
  | cons m0 t =>
    rw [summaryFixup]
    split
    · rfl
    · split <;> rfl

theorem fixup_areas (text : Str) (ms : List HMatch) (sm : SectionMap) :
    (summaryFixup text ms sm).areas_of_expertise = sm.areas_of_expertise := by
  cases ms with
  | nil => rfl
  | cons m0 t =>
    rw [summaryFixup]
    split
    · rfl
    · split <;> rfl

/-- Claim C6 counterexample: with two `"Professional Summary:"` headers the key
receives the content of the **second** (last-seen) occurrence, not the
first-seen one as the claim states. -/
theorem C6_counterexample :
    (section_text "Professional Summary:A\nProfessional Summary:B".toList).professional_summary =
        "B".toList ∧
      "B".toList ≠ "A".toList := by
  refine ⟨by decide, by decide⟩

/-- Claim C6 amended: when several recognized header occurrences map to the
same key, the assignment loop makes the **last**-seen occurrence win for the
ordinary keys (shown in general for the professional-experience and
areas-of-expertise keys, whose blocks no later phase rewrites); only the
`"Educational Details:"` variant fills the educational key if and only if it is
still empty, so for that single pairing the first-seen occurrence survives. -/
theorem C6_amended :
    (∀ text : Str,
        (section_text text).professional_experience =
          (lastFor HKey.expK (sectionBlocksKeyed text)).getD [] ∧
        (section_text text).areas_of_expertise =
          (lastFor HKey.areasK (sectionBlocksKeyed text)).getD []) ∧
      (section_text "Educational:A\nEducational Details:B".toList).educational = "A".toList ∧
      (section_text "Professional Experience:X\nEducational Details:B".toList).educational =
        "B".toList ∧
      (section_text "Educational Details:B\nEducational:A".toList).educational = "A".toList := by
  refine ⟨fun text => ⟨?_, ?_⟩, by decide, by decide, by decide⟩
  · rw [section_text, fixup_exp, assignSections, foldl_exp]
    rfl
  · rw [section_text, fixup_areas, assignSections, foldl_areas]
    rfl

/-! ### Experience extractor (information_parser.py:242-285) -/

/-- One experience entry (the keys of the `current_job` dict; a key is absent
when its pattern did not contribute). -/
structure ExperienceEntry where
  client : Option Str
  title : Option Str
  duration : Option Str
  location : Option Str
  responsibilities : Option (List Str)
deriving DecidableEq, Repr

/-- All positions where the (lower-case) pattern matches case-insensitively
(candidate positions for `re.search`-style backtracking; overlapping allowed). -/
def ciAllOccs (pat : Str) : Str → List Nat
  | [] => []
  | c :: cs => (if ciLeads pat (c :: cs) then [0] else []) ++ (ciAllOccs pat cs).map (· + 1)

/-- All positions where the pattern matches case-sensitively. -/
def allOccsCS (pat : Str) : Str → List Nat
  | [] => []
  | c :: cs => (if leadsWith pat (c :: cs) then [0] else []) ++ (allOccsCS pat cs).map (· + 1)

/-- Candidate group-start positions for `\s*\n\s*(…)` at position `p`, in the
engine's exploration order.  The greedy `\s*`s first place the `\n` on the last
newline of the maximal whitespace run and the group at the run's end.  When the
continuation fails everywhere from there, backtracking moves the pattern's `\n`
to an earlier newline of the run, which lets the continuation's own leading
`\n` literal consume the run's **last** newline: possible exactly when the run
ends in a newline and contains at least two, and then the group is empty at
position `run end - 1` (the later start was already explored, so it is listed
second). -/
def wsNLStarts (s : Str) (p : Nat) : List Nat :=
  (if 1 ≤ ((s.drop p).take (wsRunLen (s.drop p))).count '\n' then
    [p + wsRunLen (s.drop p)] else []) ++
  (if 2 ≤ ((s.drop p).take (wsRunLen (s.drop p))).count '\n' ∧
      ((s.drop p).take (wsRunLen (s.drop p))).getLast? = some '\n' then
    [p + wsRunLen (s.drop p) - 1] else [])

/-- First `ch` at a position `≥ p`. -/
def findCharFrom (ch : Char) (s : Str) (p : Nat) : Option Nat :=
  (findSubCS [ch] (s.drop p)).map (· + p)

/-- The bounds of the lazy group in the tail `\s*\n\s*(.*?)\n` at position `p`:
the group runs from the end of the whitespace run to the first later newline.
If no newline follows the run, backtracking places the pattern's first `\n` on
an earlier newline of the run and the trailing `\n` literal on the run's
**last** newline, with an empty group there — possible exactly when the run
contains at least two newlines. -/
def finalNLStop (s : Str) (p : Nat) : Option (Nat × Nat) :=
  if 1 ≤ ((s.drop p).take (wsRunLen (s.drop p))).count '\n' then
    match findCharFrom '\n' s (p + wsRunLen (s.drop p)) with
    | some t3 => some (p + wsRunLen (s.drop p), t3)
    | none =>
      if 2 ≤ ((s.drop p).take (wsRunLen (s.drop p))).count '\n' then
        match findSubCS ['\n'] ((s.drop p).take (wsRunLen (s.drop p))).reverse with
        | some k => some (p + wsRunLen (s.drop p) - 1 - k, p + wsRunLen (s.drop p) - 1 - k)
        | none => none
      else none
  else none

/-- The combined pattern
`Client\s*\n\s*(.*?)\nTitle\s*\n\s*(.*?)\nDuration\s*\n\s*(.*?)\n`
(`re.DOTALL | re.IGNORECASE`): each lazy group runs to the first occurrence of
the next literal from which the rest of the pattern succeeds; failed candidates
backtrack to the next occurrence, then to the later whitespace-run start,
outermost last. -/
def clientMatch (block : Str) : Option (Str × Str × Str) :=
  (ciAllOccs "client".toList block).findSome? fun q =>
    (wsNLStarts block (q + 6)).findSome? fun a =>
      ((ciAllOccs "\ntitle".toList block).filter (fun t => a ≤ t)).findSome? fun t1 =>
        (wsNLStarts block (t1 + 6)).findSome? fun b =>
          ((ciAllOccs "\nduration".toList block).filter (fun t => b ≤ t)).findSome? fun t2 =>
            match finalNLStop block (t2 + 9) with
            | none => none
            | some (c, t3) => some (seg block a t1, seg block b t2, seg block c t3)

/-- The class `[A-Za-z\s,]` of the location pattern. -/
def locClassCh (c : Char) : Bool := isAsciiAlpha c || isSpaceCh c || decide (c = ',')

def stateAbbrs : List Str :=
  ["TX".toList, "WI".toList, "IL".toList, "MA".toList, "WA".toList, "MD".toList, "CA".toList]

def isWordCh (c : Char) : Bool := isAsciiAlpha c || isDigitCh c || decide (c = '_')

/-- `(?:TX|WI|IL|MA|WA|MD|CA)\b` at position `p` (case-sensitive: the pattern
is compiled without `re.IGNORECASE`). -/
def stateAt (s : Str) (p : Nat) : Bool :=
  stateAbbrs.any fun ab =>
    leadsWith ab (s.drop p) && ((s.drop (p + 2)).isEmpty || !isWordCh ((s.drop (p + 2)).headD ' '))

/-- Give the greedy class run back until a state abbreviation with a word
boundary follows; at least one class character must remain after the
whitespace run. -/
def locBack (s : Str) (j : Nat) : Nat → Option Nat
  | 0 => none
  | l + 1 => if stateAt s (j + l + 1) then some (l + 1) else locBack s j l

/-- The tail `,\s*([A-Za-z\s,]+(?:TX|WI|IL|MA|WA|MD|CA)\b)` anchored on the
comma at position `i`.  Whitespace is itself a class character, so after the
class run is given back to its start `j` (the end of the maximal whitespace
run), the greedy `\s*` backtracks one further character, letting the `+` cover
the run's last whitespace char and the abbreviation start **at** `j` — tried
last, and only when there was whitespace to give back.  `group(1).strip()` is
returned, which erases the group-boundary difference. -/
def locSearchAt (s : Str) (i : Nat) : Option Str :=
  match locBack s (i + 1 + wsRunLen (s.drop (i + 1)))
      (((s.drop (i + 1 + wsRunLen (s.drop (i + 1)))).takeWhile locClassCh).length) with
  | some l =>
    some (pyStrip (seg s (i + 1 + wsRunLen (s.drop (i + 1)))
      (i + 1 + wsRunLen (s.drop (i + 1)) + l + 2)))
  | none =>
    if 1 ≤ wsRunLen (s.drop (i + 1)) ∧ stateAt s (i + 1 + wsRunLen (s.drop (i + 1))) then
      some (pyStrip (seg s (i + 1 + wsRunLen (s.drop (i + 1)))
        (i + 1 + wsRunLen (s.drop (i + 1)) + 2)))
    else none

/-- `re.search(r",\s*([A-Za-z\s,]+(?:TX|WI|IL|MA|WA|MD|CA)\b)", g1)`: the match
starts at a comma; `group(1).strip()` is returned. -/
def locationSearch (g1 : Str) : Option Str :=
  (allOccsCS [','] g1).findSome? fun i => locSearchAt g1 i

def schwabLit : Str :=
  "the charles schwab corporation is an american multinational financial services company".toList

/-- The fallback location pattern anchored on the literal Charles-Schwab
description (information_parser.py:270): `\nDescription:\s*<literal>.\n\s*`
`Responsibilities:\n[\s\S]*?Environment:[\s\S]*?,\s*([A-Za-z\s,]+(?:TX|…)\b)`;
the pattern is compiled without `re.DOTALL`, so its lone `.` matches any
character **except** a newline. -/
def locationFallback (block : Str) : Option Str :=
  (ciAllOccs "\ndescription:".toList block).findSome? fun q =>
    if ciLeads schwabLit (block.drop (q + 13 + wsRunLen (block.drop (q + 13)))) then
      match block.drop (q + 13 + wsRunLen (block.drop (q + 13)) + schwabLit.length) with
      | c :: '\n' :: _ =>
        if c = '\n' then none
        else
          match afterNL2 block
              (q + 13 + wsRunLen (block.drop (q + 13)) + schwabLit.length + 2) with
          | none => none
          | some p4 =>
            ((ciAllOccs "environment:".toList block).filter (fun e => p4 ≤ e)).findSome? fun e =>
              ((allOccsCS [','] block).filter (fun i => e + 12 ≤ i)).findSome? fun i =>
                locSearchAt block i
      | _ => none
    else none
where
  /-- `\s*Responsibilities:\n` at position `p`: whitespace run, the literal,
  then a newline; returns the position after that newline. -/
  afterNL2 (s : Str) (p : Nat) : Option Nat :=
    if ciLeads "responsibilities:".toList (s.drop (p + wsRunLen (s.drop p))) then
      match s.drop (p + wsRunLen (s.drop p) + 17) with
      | '\n' :: _ => some (p + wsRunLen (s.drop p) + 18)
      | _ => none
    else none

/-- Position just after the **last** newline of the whitespace run at `p`
(the greedy `\s*` before the `\n` of `Responsibilities:\s*\n`). -/
def afterLastNL (s : Str) (p : Nat) : Option Nat :=
  match findSubCS ['\n'] ((s.drop p).take (wsRunLen (s.drop p))).reverse with
  | none => none
  | some k => some (p + wsRunLen (s.drop p) - k)

/-- The stop of the lazy group in `(.*?)(?=\nEnvironment:|\Z)`. -/
def respStopGo : Nat → Nat → Str → Nat
  | 0, p, _ => p
  | _ + 1, p, [] => p
  | fuel + 1, p, c :: cs =>
    if ciLeads "\nenvironment:".toList (c :: cs) then p else respStopGo fuel (p + 1) cs

/-- `re.search(r"Responsibilities:\s*\n(.*?)(?=\nEnvironment:|\Z)", block)`
(`re.DOTALL | re.IGNORECASE`), returning the raw group 1. -/
def respMatch (block : Str) : Option Str :=
  (ciAllOccs "responsibilities:".toList block).findSome? fun q =>
    match afterLastNL block (q + 17) with
    | none => none
    | some start =>
      some (seg block start (respStopGo (block.length + 1) start (block.drop start)))

/-- `re.sub(r'^\s*[\•*-]\s*', '', line)`: strip one leading bullet glyph and
the whitespace around it (at most one substitution, since `^` is not
multiline). -/
def stripBullet (line : Str) : Str :=
  match line.drop (wsRunLen line) with
  | c :: rest =>
    if c = '•' ∨ c = '*' ∨ c = '-' then rest.drop (wsRunLen rest) else line
  | [] => line

/-- The `Responsibilities` list built from the raw group. -/
def respList (g1 : Str) : List Str :=
  ((splitChar '\n' (pyStrip g1)).map fun l => pyStrip (stripBullet l)).filter
    fun l => !l.isEmpty

/-- The per-block body of the `parse_experience` loop: strip the block, skip it
when empty, try the combined Client/Title/Duration pattern and the
Responsibilities pattern, and keep the entry only when the dict is nonempty. -/
def blockEntry (block0 : Str) : Option ExperienceEntry :=
  if (pyStrip block0).isEmpty then none
  else
    match clientMatch (pyStrip block0), respMatch (pyStrip block0) with
    | none, none => none
    | cm, rm =>
      some { client := cm.map fun g => pyStrip ((splitChar ',' g.1).headD [])
             title := cm.map fun g => pyStrip g.2.1
             duration := cm.map fun g => pyStrip g.2.2
             location := cm.bind fun g =>
               match locationSearch g.1 with
               | some loc => some loc
               | none => locationFallback (pyStrip block0)
             responsibilities := rm.map respList }

/-- The loop body of `parse_experience`: append the block's entry, if any. -/
def expStep (acc : List ExperienceEntry) (b : Str) : List ExperienceEntry :=
  match blockEntry b with
  | some e => acc ++ [e]
  | none => acc

/-- `parse_experience` (information_parser.py:242-285): split on the
`\nClient\n` marker (`re.IGNORECASE`), process each block, append the
surviving entries in order. -/
def parse_experience (etext : Str) : List ExperienceEntry :=
  (reSplitCI "\nclient\n".toList etext).foldl expStep []

theorem foldl_expStep :
    ∀ (l : List Str) (acc : List ExperienceEntry),
      l.foldl expStep acc = acc ++ l.filterMap blockEntry := by
  intro l
  induction l with
  | nil => intro acc; simp
  | cons b t ih =>
    intro acc
    rw [List.foldl_cons, List.filterMap_cons]
    cases hf : blockEntry b with
    | none => rw [show expStep acc b = acc by rw [expStep, hf], ih]
    | some e =>
      rw [show expStep acc b = acc ++ [e] by rw [expStep, hf], ih, List.append_assoc]
      rfl

/-! ## Claim C4 — blocks failing the Client/Title/Duration pattern -/

/-- Claim C4 counterexample: the block after the `\nClient\n` marker in
`"\nClient\nResponsibilities:\nDid X"` fails the combined
Client/Title/Duration pattern (the split consumed the `Client` label), yet it
**does** contribute an entry, carrying only `Responsibilities` — the
`if current_job:` guard admits any block on which at least one of the two
patterns matched. -/
theorem C4_counterexample :
    clientMatch (pyStrip "Responsibilities:\nDid X".toList) = none ∧
      parse_experience "\nClient\nResponsibilities:\nDid X".toList =
        [{ client := none, title := none, duration := none, location := none,
           responsibilities := some ["Did X".toList] }] := by
  refine ⟨by decide, by decide⟩

/-- Claim C4 amended: each block contributes independently (the output is the
`filterMap` of the per-block extraction over the split blocks, so one block's
failure never prevents later blocks from contributing), and a block on which
**both** the Client/Title/Duration pattern and the Responsibilities pattern
fail contributes no entry; Client/Title/Duration failure alone does not
suffice (see the counterexample). -/
theorem C4_amended (etext : Str) :
    parse_experience etext = (reSplitCI "\nclient\n".toList etext).filterMap blockEntry ∧
      ∀ b : Str, clientMatch (pyStrip b) = none → respMatch (pyStrip b) = none →
        blockEntry b = none := by
  constructor
  · rw [parse_experience, foldl_expStep]
    rfl
  · intro b h1 h2
    rw [blockEntry]
    split
    · rfl
    · rw [h1, h2]

/-- Witness for C4 amended: the block `"no patterns here"` fails both patterns
and is dropped. -/
theorem C4_witness :
    parse_experience "\nClient\nResponsibilities:\nDid X".toList =
        (reSplitCI "\nclient\n".toList "\nClient\nResponsibilities:\nDid X".toList).filterMap
          blockEntry ∧
      blockEntry "no patterns here".toList = none :=
  ⟨(C4_amended "\nClient\nResponsibilities:\nDid X".toList).1,
    (C4_amended []).2 "no patterns here".toList (by decide) (by decide)⟩

/-! ## Claim C5 — two "Client" markers -/

/-- Claim C5 counterexample: `"A\nClient\nB\nClient\nC"` contains exactly two
`\nClient\n` job-block markers, yet `parse_experience` returns **no** entries:
none of the three split blocks matches either pattern. -/
theorem C5_counterexample :
    (ciOccs "\nclient\n".toList "A\nClient\nB\nClient\nC".toList).length = 2 ∧
      parse_experience "A\nClient\nB\nClient\nC".toList = [] := by
  refine ⟨by decide, by decide⟩

/-- A two-marker experience text whose first block is an unmatched intro. -/
def expIntroText : Str :=
  "Intro\nClient\nAcme\nTitle\nDev\nDuration\nJan 2020 - Dec 2020\nResponsibilities:\nDid A\nEnvironment: X\nClient\nBeta\nTitle\nEng\nDuration\nJan 2021 - Dec 2021\nResponsibilities:\nDid B".toList

/-- The canonical two-job layout starting with a `Client` label line. -/
def expTwoJobText : Str :=
  "Client\nAcme, Dallas, TX\nTitle\nDev\nDuration\nJan 2020 - Present\nResponsibilities:\nDid A\nEnvironment: X\nClient\nBeta\nTitle\nEng\nDuration\nJan 2021 - Present\nResponsibilities:\nDid B".toList

theorem splitAtOccs_length (plen : Nat) (text : Str) :
    ∀ (occs : List Nat) (start : Nat),
      (splitAtOccs plen text occs start).length = occs.length + 1
  | [], _ => rfl
  | p :: rest, start => by
    rw [splitAtOccs, List.length_cons, splitAtOccs_length plen text rest (p + plen),
      List.length_cons]

theorem length_filterMap_isSome {α β : Type} (f : α → Option β) :
    ∀ l : List α, (l.filterMap f).length = (l.filter fun x => (f x).isSome).length
  | [] => rfl
  | x :: t => by
    rw [List.filterMap_cons, List.filter_cons]
    cases hf : f x with
    | none => simp [hf, length_filterMap_isSome f t]
    | some b => simp [hf, length_filterMap_isSome f t]

set_option maxRecDepth 8000 in
/-- Claim C5 amended: a text with exactly two `\nClient\n` markers splits into
exactly three blocks, and `parse_experience` is the in-document-order
`filterMap` of the per-block extraction over those blocks: one entry per block
on which the Client/Title/Duration or Responsibilities pattern matches, so the
number of entries equals the number of matching blocks — exactly two entries
precisely when exactly two of the three blocks match, and possibly fewer (the
counterexample has two markers and zero entries).  Both canonical two-job
shapes are shown concretely: an unmatched intro block followed by two
Responsibilities-only entries, and a leading `Client` label giving a full
first entry followed by a Responsibilities-only second entry. -/
theorem C5_amended (etext : Str)
    (h2 : (ciOccs "\nclient\n".toList etext).length = 2) :
    (reSplitCI "\nclient\n".toList etext).length = 3 ∧
      parse_experience etext = (reSplitCI "\nclient\n".toList etext).filterMap blockEntry ∧
      (parse_experience etext).length =
        ((reSplitCI "\nclient\n".toList etext).filter fun b => (blockEntry b).isSome).length ∧
      parse_experience expIntroText =
        [{ client := none, title := none, duration := none, location := none,
           responsibilities := some ["Did A".toList] },
         { client := none, title := none, duration := none, location := none,
           responsibilities := some ["Did B".toList] }] ∧
      parse_experience expTwoJobText =
        [{ client := some "Acme".toList, title := some "Dev".toList,
           duration := some "Jan 2020 - Present".toList,
           location := some "Dallas, TX".toList,
           responsibilities := some ["Did A".toList] },
         { client := none, title := none, duration := none, location := none,
           responsibilities := some ["Did B".toList] }] := by
  refine ⟨?_, ?_, ?_, by decide, by decide⟩
  · rw [reSplitCI, splitAtOccs_length, h2]
  · rw [parse_experience, foldl_expStep]
    rfl
  · rw [parse_experience, foldl_expStep, List.nil_append]
    exact length_filterMap_isSome blockEntry _

set_option maxRecDepth 8000 in
/-- Witness for C5 amended at the two-marker intro layout. -/
theorem C5_witness :
    (ciOccs "\nclient\n".toList expIntroText).length = 2 ∧
      ((reSplitCI "\nclient\n".toList expIntroText).length = 3 ∧
        parse_experience expIntroText =
          (reSplitCI "\nclient\n".toList expIntroText).filterMap blockEntry ∧
        (parse_experience expIntroText).length =
          ((reSplitCI "\nclient\n".toList expIntroText).filter
            fun b => (blockEntry b).isSome).length ∧
        parse_experience expIntroText =
          [{ client := none, title := none, duration := none, location := none,
             responsibilities := some ["Did A".toList] },
           { client := none, title := none, duration := none, location := none,
             responsibilities := some ["Did B".toList] }] ∧
        parse_experience expTwoJobText =
          [{ client := some "Acme".toList, title := some "Dev".toList,
             duration := some "Jan 2020 - Present".toList,
             location := some "Dallas, TX".toList,
             responsibilities := some ["Did A".toList] },
           { client := none, title := none, duration := none, location := none,
             responsibilities := some ["Did B".toList] }]) :=
  ⟨by decide, C5_amended expIntroText (by decide)⟩

/-! ### Skills extractor (information_parser.py:318-351) -/

/-- `SKILL_CATEGORIES`: the configured category vocabulary, every keyword list
empty (information_parser.py:36-47), in dict (insertion) order. -/
def SKILL_CATEGORIES : List (Str × List Str) :=
  [("Web Technologies".toList, []), ("Web Frameworks".toList, []), ("Databases".toList, []),
   ("Version Control System".toList, []),
   ("Project Management and Issue Tracking Tool".toList, []), ("Testing Tools".toList, []),
   ("Web Services".toList, []), ("Web Servers".toList, []), ("Other Technologies".toList, []),
   ("DevOps Practices".toList, [])]

/-- `[line.strip() for line in text.split('\n') if line.strip()]`. -/
def procLines (s : Str) : List Str :=
  ((splitChar '\n' s).map pyStrip).filter fun l => !l.isEmpty

/-- The first configured category whose name equals the line, case-insensitively
(`line.lower() == category_name.lower()`); the category's own spelling is kept. -/
def categoryOf (line : Str) : Option Str :=
  (SKILL_CATEGORIES.find? fun cat => decide (lowerStr line = lowerStr cat.1)).map Prod.fst

/-- `categorized_skills[k] = v`: replace in place, or append a new key. -/
def setAssoc (k : Str) (v : List Str) : List (Str × List Str) → List (Str × List Str)
  | [] => [(k, v)]
  | (k0, v0) :: t => if k0 = k then (k0, v) :: t else (k0, v0) :: setAssoc k v t

/-- `categorized_skills[k].append(x)` (the key is always present when called). -/
def appendAssoc (k : Str) (x : Str) : List (Str × List Str) → List (Str × List Str)
  | [] => []
  | (k0, v0) :: t => if k0 = k then (k0, v0 ++ [x]) :: t else (k0, v0) :: appendAssoc k x t

/-- `re.split(r'[,\;]+', line)`: a run of commas/semicolons is one separator. -/
def splitDelims : Nat → Str → List Str
  | 0, s => [s]
  | _ + 1, [] => [[]]
  | fuel + 1, c :: cs =>
    if c = ',' ∨ c = ';' then
      [] :: splitDelims fuel (cs.dropWhile fun x => decide (x = ',' ∨ x = ';'))
    else
      match splitDelims fuel cs with
      | [] => [[c]]
      | p :: ps => (c :: p) :: ps

/-- One line of the `parse_skills` loop: a category line moves the cursor and
resets that category's list; any other line is split into skills appended to
the cursor's category; lines before the first category line are dropped. -/
def skillsStep (st : Option Str × List (Str × List Str)) (line : Str) :
    Option Str × List (Str × List Str) :=
  match categoryOf line with
  | some cat => (some cat, setAssoc cat [] st.2)
  | none =>
    match st.1 with
    | none => st
    | some cat =>
      (some cat, (splitDelims (line.length + 1) line).foldl
        (fun acc sk =>
          if (pyStrip sk).isEmpty then acc
          else if pyStrip sk = "Angular 8 10 12".toList then
            appendAssoc cat "Angular 8 10 12".toList acc
          else appendAssoc cat (pyStrip sk) acc)
        st.2)

/-- `parse_skills` (information_parser.py:318-351). -/
def parse_skills (skillsText : Str) : List (Str × List Str) :=
  ((procLines skillsText).foldl skillsStep (none, [])).2

theorem splitChar_append_general (c : Char) :
    ∀ xs ys : Str, splitChar c (xs ++ c :: ys) = splitChar c xs ++ splitChar c ys := by
  intro xs
  induction xs with
  | nil => intro ys; simp [splitChar]
  | cons x t ih =>
    intro ys
    rw [List.cons_append]
    by_cases hx : x = c
    · rw [splitChar, if_pos hx, ih]
      rw [show splitChar c (x :: t) = [] :: splitChar c t from by rw [splitChar, if_pos hx]]
      rfl
    · rw [splitChar, if_neg hx, ih]
      rw [show splitChar c (x :: t) = match splitChar c t with
        | [] => [[x]]
        | p :: ps => (x :: p) :: ps from by rw [splitChar, if_neg hx]]
      cases hs : splitChar c t with
      | nil => exact absurd hs (splitChar_ne_nil c t)
      | cons p ps => simp

theorem procLines_append (pre rest : Str) :
    procLines (pre ++ '\n' :: rest) = procLines pre ++ procLines rest := by
  rw [procLines, splitChar_append_general, List.map_append, List.filter_append]
  rfl

theorem skillsFold_nocat :
    ∀ ls : List Str, (∀ l ∈ ls, (categoryOf l).isNone = true) →
      ls.foldl skillsStep (none, []) = (none, []) := by
  intro ls
  induction ls with
  | nil => intro _; rfl
  | cons l t ih =>
    intro h
    rw [List.foldl_cons]
    have hl : categoryOf l = none :=
      Option.isNone_iff_eq_none.1 (h l (List.mem_cons_self _ _))
    have hstep : skillsStep (none, []) l = (none, []) := by
      rw [skillsStep, hl]
    rw [hstep]
    exact ih fun x hx => h x (List.mem_cons_of_mem _ hx)

/-! ## Claim C9 — skills extraction -/

/-- Claim C9: on the four-line input the skills extractor returns exactly the
mapping `Databases ↦ [MySQL, PostgreSQL], Testing Tools ↦ [Selenium]` (as an
insertion-ordered association list), and any prefix of lines none of which is a
recognized category header is ignored. -/
theorem C9_skills :
    (∀ pre rest : Str, (∀ l ∈ procLines pre, (categoryOf l).isNone = true) →
        parse_skills (pre ++ '\n' :: rest) = parse_skills rest) ∧
      parse_skills "Databases\nMySQL, PostgreSQL\nTesting Tools\nSelenium".toList =
        [("Databases".toList, ["MySQL".toList, "PostgreSQL".toList]),
         ("Testing Tools".toList, ["Selenium".toList])] := by
  constructor
  · intro pre rest h
    rw [parse_skills, parse_skills, procLines_append, List.foldl_append, skillsFold_nocat _ h]
  · decide

/-- Witness for C9's universal part: a non-category junk line before the
skills table changes nothing. -/
theorem C9_witness :
    parse_skills ("junk intro line".toList ++ '\n' ::
        "Databases\nMySQL, PostgreSQL\nTesting Tools\nSelenium".toList) =
      parse_skills "Databases\nMySQL, PostgreSQL\nTesting Tools\nSelenium".toList :=
  C9_skills.1 "junk intro line".toList
    "Databases\nMySQL, PostgreSQL\nTesting Tools\nSelenium".toList (by decide)

/-! ### Identity extractor (information_parser.py:90-140)

The entity-recognition engine (`nlp` / spaCy) is an external collaborator and
is modelled as a function argument returning labeled entity spans. -/

/-- An entity span as consumed by the identity extractor (`ent.label_`,
`ent.text`). -/
structure EntitySpan where
  label : Str
  text : Str

def isAsciiLower (c : Char) : Bool := decide (97 ≤ c.toNat ∧ c.toNat ≤ 122)

def toUpperCh (c : Char) : Char :=
  if 97 ≤ c.toNat ∧ c.toNat ≤ 122 then Char.ofNat (c.toNat - 32) else c

def toUpperStr (s : Str) : Str := s.map toUpperCh

/-- `str.title()` (ASCII repertoire): first letter of each letter run
upper-cased, the rest lower-cased. -/
def pyTitleGo : Bool → Str → Str
  | _, [] => []
  | prev, c :: cs =>
    if isAsciiAlpha c then (if prev then toLowerCh c else toUpperCh c) :: pyTitleGo true cs
    else c :: pyTitleGo false cs

def pyTitle (s : Str) : Str := pyTitleGo false s

/-- `str.isupper()` (ASCII repertoire): some cased character and no lower-case
one. -/
def pyIsUpper (s : Str) : Bool := s.any isAsciiAlpha && s.all fun c => !isAsciiLower c

/-- The first PERSON entity of at least two words, title-cased
(information_parser.py:99-102). -/
def personFrom (ents : List EntitySpan) : Option Str :=
  (ents.find? fun e =>
      decide (e.label = "PERSON".toList) && decide (2 ≤ (pyWords e.text).length)).map
    fun e => pyTitle e.text

/-- The name recovered from the recognition engine on the first line, else the
second (information_parser.py:97-110). -/
def nameFromNer (ner : Str → List EntitySpan) : List Str → Str
  | [] => []
  | l0 :: rest =>
    match personFrom (ner l0) with
    | some n => n
    | none =>
      match rest with
      | [] => []
      | l1 :: _ => (personFrom (ner l1)).getD []

/-- The title pattern's character class: letters, whitespace, dot, ampersand,
slash and hyphen. -/
def titleClassCh (c : Char) : Bool :=
  isAsciiAlpha c || isSpaceCh c || decide (c = '.' ∨ c = '&' ∨ c = '/' ∨ c = '-')

def titleSuffixes : List Str :=
  ["developer".toList, "engineer".toList, "manager".toList, "analyst".toList,
   "specialist".toList, "architect".toList]

/-- `\s*$` under `re.MULTILINE` at position `p`: whitespace up to a newline or
the end of the string. -/
def titleEndOk (s : Str) (p : Nat) : Bool :=
  decide ((s.drop p).length = wsRunLen (s.drop p)) ||
    ((s.drop p).take (wsRunLen (s.drop p))).contains '\n'

/-- Greedy backtracking of `<class>+(?:Developer|…)\s*$` (with `<class>` the
`titleClassCh` set): give the class run back until one of the suffix words,
followed only by whitespace up to the line end, fits. -/
def titleBack (s : Str) (j : Nat) : Nat → Option Str
  | 0 => none
  | l + 1 =>
    match titleSuffixes.findSome? (fun suf =>
        if ciLeads suf (s.drop (j + l + 1)) && titleEndOk s (j + l + 1 + suf.length) then
          some suf
        else none) with
    | some suf => some (seg s j (j + l + 1 + suf.length))
    | none => titleBack s j l

/-- `^` anchors under `re.MULTILINE`: the string start and every
position after a newline, in order. -/
def titleAnchors (s : Str) : List Nat := 0 :: ((allOccsCS ['\n'] s).map (· + 1))

/-- The title search: `^\s*(<class>+(?:Developer|Engineer|Manager|Analyst|Specialist|Architect)\s*)$`
under `re.MULTILINE | re.IGNORECASE`, where `<class>` is `titleClassCh`: first
anchor from which the pattern matches, with the match's start position and (the
class-plus-suffix core of) group 1. -/
def titleRegexSearch (s : Str) : Option (Nat × Str) :=
  (titleAnchors s).findSome? fun p =>
    (titleBack s (p + wsRunLen (s.drop p))
        (((s.drop (p + wsRunLen (s.drop p))).takeWhile titleClassCh).length)).map
      fun g => (p, g)

/-- The ordered fallback over the first three non-blank lines
(information_parser.py:126-131). -/
def nameFallback (lines : List Str) : Str :=
  (((lines.take 3).find? fun line =>
      decide (2 ≤ (pyWords line).length) && pyIsUpper line &&
        !hasSub "DEVELOPER".toList (toUpperStr line) &&
        !hasSub "EMAIL".toList (toUpperStr line)).map pyTitle).getD []

/-- `re.search(r"Front End Developer", text, re.IGNORECASE)` near the top
(information_parser.py:133-137). -/
def titleDirect (text : Str) : Str :=
  match findSubCI "front end developer".toList text with
  | some p => if p < 300 then "Front End Developer".toList else []
  | none => []

/-- `extract_name_and_title` (information_parser.py:90-140). -/
def extract_name_and_title (ner : Str → List EntitySpan) (text : Str) : Str × Str :=
  let lines := procLines text
  let nerName := nameFromNer ner lines
  let title0 : Str :=
    if lines.isEmpty then []
    else if nerName.isEmpty then []
    else
      match findSubCS nerName text with
      | none => []
      | some idx =>
        match titleRegexSearch (text.drop (idx + nerName.length)) with
        | none => []
        | some (p, g) => if p < 100 then pyStrip g else []
  (if nerName.isEmpty then nameFallback lines else nerName,
    if title0.isEmpty then titleDirect text else title0)

/-! ### Education extractor (information_parser.py:287-316) -/

structure EduEntry where
  degree : Option Str
  field : Option Str
  institution : Option Str
  location : Option Str
  duration : Option Str
deriving DecidableEq, Repr

/-- `re.search(r"Bachelor of Technology in (.*?) from (.*?),\s*(.*)", s, re.IGNORECASE)`:
without `re.DOTALL` a `.` never crosses a newline, so each lazy group runs to
the first following literal on the same line; the final greedy `(.*)` takes the
rest of the line. -/
def btechSearch (s : Str) : Option (Str × Str × Str) :=
  (ciAllOccs "bachelor of technology in ".toList s).findSome? fun q =>
    ((ciAllOccs " from ".toList s).filter fun t => q + 26 ≤ t).findSome? fun t1 =>
      if (seg s (q + 26) t1).contains '\n' then none
      else
        ((allOccsCS [','] s).filter fun t => t1 + 6 ≤ t).findSome? fun t2 =>
          if (seg s (t1 + 6) t2).contains '\n' then none
          else
            some (seg s (q + 26) t1, seg s (t1 + 6) t2,
              seg s (t2 + 1 + wsRunLen (s.drop (t2 + 1)))
                (t2 + 1 + wsRunLen (s.drop (t2 + 1)) +
                  ((s.drop (t2 + 1 + wsRunLen (s.drop (t2 + 1)))).takeWhile
                    fun ch => decide (ch ≠ '\n')).length))

/-- `\w+\s+\d{4}` at position `p`: word-character run, whitespace run, four
digits; returns the end position and the matched text. -/
def parseWordWs4 (s : Str) (p : Nat) : Option (Nat × Str) :=
  if ((s.drop p).takeWhile isWordCh).length = 0 then none
  else
    if wsRunLen (s.drop (p + ((s.drop p).takeWhile isWordCh).length)) = 0 then none
    else
      match takeN isDigitCh 4 (s.drop (p + ((s.drop p).takeWhile isWordCh).length +
          wsRunLen (s.drop (p + ((s.drop p).takeWhile isWordCh).length)))) with
      | some _ =>
        some (p + ((s.drop p).takeWhile isWordCh).length +
            wsRunLen (s.drop (p + ((s.drop p).takeWhile isWordCh).length)) + 4,
          seg s p (p + ((s.drop p).takeWhile isWordCh).length +
            wsRunLen (s.drop (p + ((s.drop p).takeWhile isWordCh).length)) + 4))
      | none => none

/-- `re.search(r"Masters from (.*?),\s*(.*?)\.\n\s*\((\w+\s+\d{4})\s*-\s*(\w+\s+\d{4})\)", s, re.IGNORECASE)`. -/
def mastersSearch (s : Str) : Option (Str × Str × Str × Str) :=
  (ciAllOccs "masters from ".toList s).findSome? fun q =>
    ((allOccsCS [','] s).filter fun t => q + 13 ≤ t).findSome? fun t1 =>
      if (seg s (q + 13) t1).contains '\n' then none
      else
        ((allOccsCS ['.', '\n'] s).filter
            fun t => t1 + 1 + wsRunLen (s.drop (t1 + 1)) ≤ t).findSome? fun t2 =>
          if (seg s (t1 + 1 + wsRunLen (s.drop (t1 + 1))) t2).contains '\n' then none
          else
            match s.drop (t2 + 2 + wsRunLen (s.drop (t2 + 2))) with
            | '(' :: _ =>
              match parseWordWs4 s (t2 + 2 + wsRunLen (s.drop (t2 + 2)) + 1) with
              | none => none
              | some (e1, g3) =>
                match s.drop (e1 + wsRunLen (s.drop e1)) with
                | '-' :: _ =>
                  match parseWordWs4 s (e1 + wsRunLen (s.drop e1) + 1 +
                      wsRunLen (s.drop (e1 + wsRunLen (s.drop e1) + 1))) with
                  | none => none
                  | some (e2, g4) =>
                    match s.drop e2 with
                    | ')' :: _ =>
                      some (seg s (q + 13) t1,
                        seg s (t1 + 1 + wsRunLen (s.drop (t1 + 1))) t2, g3, g4)
                    | _ => none
                | _ => none
            | _ => none

/-- `parse_education` (information_parser.py:287-316): the two degree matchers
are evaluated independently, each contributing at most one entry. -/
def parse_education (eduText : Str) : List EduEntry :=
  (match btechSearch eduText with
   | some (g1, g2, g3) =>
     [{ degree := some "B.Tech".toList, field := some (pyStrip g1),
        institution := some (pyStrip g2 ++ ", ".toList ++ pyStrip g3),
        location := none, duration := none }]
   | none => []) ++
  (match mastersSearch eduText with
   | some (g1, g2, g3, g4) =>
     [{ degree := some "Masters".toList, field := none,
        institution := some (pyStrip g1), location := some (pyStrip g2),
        duration := some (g3 ++ " - ".toList ++ g4) }]
   | none => [])

/-! ### Projects extractor (information_parser.py:354-391) -/

structure ProjEntry where
  title : Str
  description : Str
  technologies : List Str
  link : Str
deriving DecidableEq, Repr

/-- The alternatives of the `tech_regex` alternation, in source order,
lower-cased for the case-insensitive scan. -/
def techAlts : List Str :=
  ["python".toList, "tensorflow".toList, "pandas".toList, "react.js".toList,
   "node.js".toList, "express".toList, "mongodb".toList, "html5".toList, "css3".toList,
   "sass".toList, "javascript".toList, "typescript".toList, "material-ui".toList,
   "react redux".toList, "cypress".toList, "cyara".toList, "json".toList, "npm".toList,
   "axios".toList, "bitbucket".toList, "jira".toList, "aws".toList, "agile/scrum".toList]

/-- `re.findall(tech_regex, description, re.IGNORECASE)`: first alternative
matching at the leftmost position; matched text keeps the original casing. -/
def techFindGo : Nat → Str → List Str
  | 0, _ => []
  | _ + 1, [] => []
  | fuel + 1, c :: cs =>
    match techAlts.findSome? (fun alt =>
        if ciLeads alt (c :: cs) then some alt.length else none) with
    | some n => (c :: cs).take n :: techFindGo fuel ((c :: cs).drop n)
    | none => techFindGo fuel cs

/-- The technologies list of a project: keywords from the (all-empty)
`SKILL_CATEGORIES` lists, then the `tech_regex` matches, deduplicated in
order. -/
def projTechs (desc : Str) : List Str :=
  let fromCats := SKILL_CATEGORIES.foldl
    (fun acc cat => cat.2.foldl
      (fun acc kw =>
        if hasSub (lowerStr kw) (lowerStr desc) ∧ kw ∉ acc then acc ++ [kw] else acc)
      acc)
    []
  (techFindGo (desc.length + 1) desc).foldl
    (fun acc t => if t ∉ acc then acc ++ [t] else acc) fromCats

/-- Lexicographic order on strings by code point (Python `sorted`). -/
def strLe : Str → Str → Bool
  | [], _ => true
  | _ :: _, [] => false
  | a :: as2, b :: bs => if a = b then strLe as2 bs else decide (a.toNat < b.toNat)

/-- The stop of the lazy `(.*?)` before `(Link:\s*(.*?))?$` (`re.DOTALL`, no
`re.MULTILINE`): the first position with a `Link:` marker, a final newline, or
the end. -/
def projStop : Nat → Nat → Str → Nat
  | 0, p, _ => p
  | _ + 1, p, [] => p
  | fuel + 1, p, c :: cs =>
    if ciLeads "link:".toList (c :: cs) then p
    else
      match c, cs with
      | '\n', [] => p
      | _, _ => projStop fuel (p + 1) cs

/-- `$` position for the inner lazy group: just before a final newline, else
the end. -/
def dollarStop (s : Str) (b : Nat) : Nat :=
  if 0 < s.length ∧ s.getD (s.length - 1) ' ' = '\n' ∧ b ≤ s.length - 1 then s.length - 1
  else s.length

/-- Start of the lazy description group: after the anchor literal, `\s*`, the
hyphen, and `\s*` again. -/
def projDescStart (s : Str) (q : Nat) : Nat :=
  q + 32 + wsRunLen (s.drop (q + 32)) + 1 +
    wsRunLen (s.drop (q + 32 + wsRunLen (s.drop (q + 32)) + 1))

/-- The optional `(Link:\s*(.*?))?` group taken at position `p`: when the
marker is present, group 3 runs lazily up to `$`. -/
def projLinkGroup (s : Str) (p : Nat) : Option Str :=
  if ciLeads "link:".toList (s.drop p) then
    some (seg s (p + 5 + wsRunLen (s.drop (p + 5)))
      (dollarStop s (p + 5 + wsRunLen (s.drop (p + 5)))))
  else none

/-- The project search: `E-commerce Recommendation System\s*-\s*(.*?)(Link:\s*(.*?))?$`
under `re.DOTALL | re.IGNORECASE`; returns group 1 and, when present,
group 3. -/
def projMatch (s : Str) : Option (Str × Option Str) :=
  (ciAllOccs "e-commerce recommendation system".toList s).findSome? fun q =>
    match s.drop (q + 32 + wsRunLen (s.drop (q + 32))) with
    | '-' :: _ =>
      some (seg s (projDescStart s q)
          (projStop (s.length + 1) (projDescStart s q) (s.drop (projDescStart s q))),
        projLinkGroup s
          (projStop (s.length + 1) (projDescStart s q) (s.drop (projDescStart s q))))
    | _ => none

/-- `parse_projects` (information_parser.py:354-391). -/
def parse_projects (ptext : Str) : List ProjEntry :=
  match projMatch ptext with
  | none => []
  | some (g1, g3opt) =>
    [{ title := "E-commerce Recommendation System".toList
       description := pyStrip g1
       technologies := List.insertionSort (fun a b => strLe a b = true)
         (projTechs (pyStrip g1))
       link := match g3opt with
         | some g3 => if g3.isEmpty then [] else pyStrip g3
         | none => [] }]

/-! ### Assembler (information_parser.py:394-441) -/

/-- `ResumeRecord`: the terminal aggregate returned by `parse_resume`; the
record always carries exactly these fields. -/
structure ResumeRecord where
  name : Str
  title : Str
  contact : ContactInfo
  summary : Str
  skills : List (Str × List Str)
  education : List EduEntry
  experience : List ExperienceEntry
  projects : List ProjEntry
  awards : List Str
  certifications : List Str
deriving DecidableEq, Repr

/-- `parse_resume` (information_parser.py:394-441).  The top-level
`doc = nlp(raw_text)` is computed and never used; the recognition engine is
only consulted through `extract_name_and_title`. -/
def parse_resume (ner : Str → List EntitySpan) (rawText : Str) : ResumeRecord :=
  let nt := extract_name_and_title ner rawText
  let sm := section_text rawText
  { name := nt.1
    title := nt.2
    contact := extract_contact_info rawText
    summary := pyStrip sm.professional_summary
    skills := parse_skills sm.areas_of_expertise
    education := parse_education sm.educational
    experience := parse_experience sm.professional_experience
    projects := parse_projects (sm.projects ++ '\n' :: rawText)
    awards := []
    certifications := [] }

/-! ## Claim C8 — the pipeline on the empty document -/

/-- Claim C8: on the empty input, whatever the entity-recognition engine, the
whole pipeline returns (without error — every stage is total) the record with
every field at its empty default: empty strings for Name/Title/Summary, the
all-absent contact mapping, the empty skills mapping, and empty sequences for
Education/Experience/Projects/Awards/Certifications.  The `ResumeRecord`
structure fixes the field set, so the output shape is the same for every
input. -/
theorem C8_empty_pipeline (ner : Str → List EntitySpan) :
    parse_resume ner [] =
      { name := [], title := [],
        contact := { email := none, mobile := none, linkedin := none, github := none,
                     website := none },
        summary := [], skills := [], education := [], experience := [], projects := [],
        awards := [], certifications := [] } := rfl

end ResumeCore
